import Mathlib

/-!
# The memory manager of `ngraph/pass/memory_layout.cpp`

A shallow embedding of `pass::MemoryManager` (the free-list pool allocator used by the
`MemoryLayout` pass) and of the two member functions of `pass::MemoryLayout`, and
theorems about them.

* `size_t` is modelled as `Nat` with explicit reduction modulo `2 ^ 64` at every
  operation of the source that can wrap.
* `std::list<node>` is modelled as `List node`; an iterator is a position in the list.
* A member function that can throw returns `Except Exn _`; the state is passed explicitly.
-/

namespace ngraph

/-! ## Data model -/

/-- The value of `numeric_limits<size_t>::max()` for a 64-bit `size_t`. -/
def SIZE_MAX : Nat := 2 ^ 64 - 1

/-- The enum `block_state` of the memory manager. -/
inductive block_state where
  | FREE
  | ALLOCATED
deriving DecidableEq, Repr

/-- The class `MemoryManager::node`: a block of the pool, `m_size` bytes in state `m_state`. -/
structure node where
  m_size : Nat
  m_state : block_state
deriving DecidableEq, Repr

/-- The enum `allocation_scheme` of the memory manager. -/
inductive allocation_scheme where
  | FIRST_FIT
  | BEST_FIT
deriving DecidableEq, Repr

/-- The data members of `pass::MemoryManager`. -/
structure MemoryManager where
  m_alignment : Nat
  m_scheme : allocation_scheme
  m_node_list : List node
  m_max_allocated : Nat
deriving DecidableEq, Repr

/-- The exceptions thrown by the memory manager: `std::bad_alloc` from `allocate`, and
`std::runtime_error("bad free")` from `free`. -/
inductive Exn where
  | bad_alloc
  | bad_free
deriving DecidableEq, Repr

/-! ## Operations -/

/-- The constructor `MemoryManager::MemoryManager(size_t alignment)`: one FREE block of
`numeric_limits<size_t>::max()` bytes, scheme `BEST_FIT`, nothing allocated. -/
def MemoryManager.new (alignment : Nat) : MemoryManager :=
  { m_alignment := alignment
    m_scheme := allocation_scheme.BEST_FIT
    m_max_allocated := 0
    m_node_list := [⟨SIZE_MAX, block_state.FREE⟩] }

/-- The function `MemoryManager::align(size, alignment)`. The addition is a `size_t`
addition and wraps modulo `2 ^ 64`. (`alignment = 0` with `size ≠ 0` divides by zero
in the source; the theorems below assume `0 < alignment` wherever `align` matters.) -/
def MemoryManager.align (size alignment : Nat) : Nat :=
  if size = 0 then
    alignment
  else
    let remainder := size % alignment
    if remainder > 0 then
      (size + (alignment - remainder)) % 2 ^ 64
    else
      size

/-- The loop of `MemoryManager::first_fit`, from the iterator at the head of the list
with the running `size_t` value `offset`. It yields the value of `offset` at the `break`
and the list after the split or the flip, or `none` when the loop ends with
`found == false`. -/
def first_fit_loop (size : Nat) : Nat → List node → Option (Nat × List node)
  | _, [] => none
  | offset, it :: rest =>
    if it.m_state = block_state.FREE ∧ it.m_size ≥ size then
      if it.m_size > size then
        some (offset, ⟨size, block_state.ALLOCATED⟩ :: { it with m_size := it.m_size - size } :: rest)
      else
        some (offset, { it with m_state := block_state.ALLOCATED } :: rest)
    else
      match first_fit_loop size ((offset + it.m_size) % 2 ^ 64) rest with
      | none => none
      | some (o, l) => some (o, it :: l)

/-- The function `MemoryManager::first_fit(size)`. -/
def MemoryManager.first_fit (m : MemoryManager) (size : Nat) : Except Exn (Nat × MemoryManager) :=
  let size := MemoryManager.align size m.m_alignment
  match first_fit_loop size 0 m.m_node_list with
  | none => Except.error Exn.bad_alloc
  | some (offset, l) =>
    Except.ok (offset,
      { m with
        m_node_list := l
        m_max_allocated := max m.m_max_allocated ((offset + size) % 2 ^ 64) })

/-- The local variables of `MemoryManager::best_fit` that survive its loop: `min_delta`,
the iterator `best_fit` (a position in the list, `none` for `end()`), and `best_offset`. -/
structure best_fit_vars where
  min_delta : Nat
  best_fit : Option Nat
  best_offset : Nat
deriving DecidableEq, Repr

/-- The loop of `MemoryManager::best_fit`, from the iterator at position `idx` with the
running `size_t` value `offset`. -/
def best_fit_loop (size : Nat) : List node → Nat → Nat → best_fit_vars → best_fit_vars
  | [], _, _, v => v
  | it :: rest, idx, offset, v =>
    if it.m_state = block_state.FREE ∧ it.m_size ≥ size then
      let delta := it.m_size - size
      if delta < v.min_delta then
        best_fit_loop size rest (idx + 1) ((offset + it.m_size) % 2 ^ 64)
          { min_delta := delta, best_fit := some idx, best_offset := offset }
      else
        best_fit_loop size rest (idx + 1) ((offset + it.m_size) % 2 ^ 64) v
    else
      best_fit_loop size rest (idx + 1) ((offset + it.m_size) % 2 ^ 64) v

/-- The statement `best_fit->m_state = block_state::ALLOCATED` at position `idx`. -/
def flip_at : List node → Nat → List node
  | [], _ => []
  | it :: rest, 0 => { it with m_state := block_state.ALLOCATED } :: rest
  | it :: rest, idx + 1 => it :: flip_at rest idx

/-- The statements `m_node_list.insert(best_fit, node{size, ALLOCATED});
best_fit->m_size -= size` at position `idx` (the subtraction cannot wrap: the loop only
selects a block with `m_size >= size`). -/
def split_at (size : Nat) : List node → Nat → List node
  | [], _ => []
  | it :: rest, 0 =>
    ⟨size, block_state.ALLOCATED⟩ :: { it with m_size := it.m_size - size } :: rest
  | it :: rest, idx + 1 => it :: split_at size rest idx

/-- The function `MemoryManager::best_fit(size)`. -/
def MemoryManager.best_fit (m : MemoryManager) (size : Nat) : Except Exn (Nat × MemoryManager) :=
  let size := MemoryManager.align size m.m_alignment
  let v := best_fit_loop size m.m_node_list 0 0
    { min_delta := SIZE_MAX, best_fit := none, best_offset := 0 }
  match v.best_fit with
  | none => Except.error Exn.bad_alloc
  | some idx =>
    let l := if v.min_delta = 0 then flip_at m.m_node_list idx else split_at size m.m_node_list idx
    Except.ok (v.best_offset,
      { m with
        m_node_list := l
        m_max_allocated := max m.m_max_allocated ((v.best_offset + size) % 2 ^ 64) })

/-- The function `MemoryManager::allocate(size)`. -/
def MemoryManager.allocate (m : MemoryManager) (size : Nat) : Except Exn (Nat × MemoryManager) :=
  match m.m_scheme with
  | allocation_scheme.FIRST_FIT => m.first_fit size
  | allocation_scheme.BEST_FIT => m.best_fit size

/-- The body of the `if (offset == search_offset)` branch of `MemoryManager::free`, with
the iterator `it` between the blocks before it (`rpre`, nearest first) and the blocks
after it (`rest`). The additions are `size_t` additions. -/
def free_here (rpre : List node) (it : node) (rest : List node) : List node :=
  let p : List node × node :=
    match rpre with
    | [] => ([], { it with m_state := block_state.FREE })
    | it_prev :: before =>
      if it_prev.m_state = block_state.FREE then
        (before, { it with m_size := (it.m_size + it_prev.m_size) % 2 ^ 64 })
      else
        (rpre, it)
  let q : node × List node :=
    match rest with
    | [] => (p.2, [])
    | it_next :: after =>
      if it_next.m_state = block_state.FREE then
        ({ p.2 with m_size := (p.2.m_size + it_next.m_size) % 2 ^ 64 }, after)
      else
        (p.2, rest)
  p.1.reverse ++ { q.1 with m_state := block_state.FREE } :: q.2

/-- The loop of `MemoryManager::free`, with the iterator at the head of the last
argument, the blocks already passed in `rpre` (nearest first) and the running `size_t`
value `search_offset`; `none` when the loop ends with `found == false`. -/
def free_loop (offset : Nat) : List node → Nat → List node → Option (List node)
  | _, _, [] => none
  | rpre, search_offset, it :: rest =>
    if offset = search_offset then
      some (free_here rpre it rest)
    else
      free_loop offset (it :: rpre) ((search_offset + it.m_size) % 2 ^ 64) rest

/-- The function `MemoryManager::free(offset)`. -/
def MemoryManager.free (m : MemoryManager) (offset : Nat) : Except Exn MemoryManager :=
  match free_loop offset [] 0 m.m_node_list with
  | none => Except.error Exn.bad_free
  | some l => Except.ok { m with m_node_list := l }

/-! ## Vocabulary of the statements -/

/-- The sum of the sizes of a run of blocks, as a natural number (no wrap-around). -/
def total : List node → Nat
  | [] => 0
  | b :: l => b.m_size + total l

/-- The test `it->m_state == block_state::FREE && it->m_size >= size` of both loops. -/
def fits (size : Nat) (b : node) : Prop :=
  b.m_state = block_state.FREE ∧ size ≤ b.m_size

instance (size : Nat) (b : node) : Decidable (fits size b) := by
  unfold fits; infer_instance

/-- The addition in `align size alignment` does not wrap: the rounded size is
representable in `size_t`. -/
def align_no_wrap (size alignment : Nat) : Prop :=
  size = 0 ∨ size % alignment = 0 ∨ size + (alignment - size % alignment) < 2 ^ 64

instance (size alignment : Nat) : Decidable (align_no_wrap size alignment) := by
  unfold align_no_wrap; infer_instance

/-- The blocks that replace the chosen FREE block `it` when `size` bytes are allocated
from it: the new ALLOCATED block and the shrunk remainder, or the flipped block. -/
def carve (size : Nat) (it : node) : List node :=
  if size < it.m_size then
    [⟨size, block_state.ALLOCATED⟩, ⟨it.m_size - size, block_state.FREE⟩]
  else
    [⟨it.m_size, block_state.ALLOCATED⟩]

/-- The blocks before the freed block that stay in the list: all of them, without the
immediate predecessor when that one is FREE. -/
def kept_before (pre : List node) : List node :=
  match pre.getLast? with
  | some p => if p.m_state = block_state.FREE then pre.dropLast else pre
  | none => pre

/-- The size the freed block absorbs from its immediate predecessor: the predecessor's
size when it is FREE, nothing otherwise. -/
def absorbed_before (pre : List node) : Nat :=
  match pre.getLast? with
  | some p => if p.m_state = block_state.FREE then p.m_size else 0
  | none => 0

/-- The blocks after the freed block that stay in the list: all of them, without the
immediate successor when that one is FREE. -/
def kept_after (post : List node) : List node :=
  match post with
  | n :: rest => if n.m_state = block_state.FREE then rest else post
  | [] => []

/-- The size the freed block absorbs from its immediate successor: the successor's size
when it is FREE, nothing otherwise. -/
def absorbed_after (post : List node) : Nat :=
  match post with
  | n :: _ => if n.m_state = block_state.FREE then n.m_size else 0
  | [] => 0

/-- No two consecutive blocks of the list are both FREE. -/
def no_adjacent_free (l : List node) : Prop :=
  List.Chain' (fun x y => ¬ (x.m_state = block_state.FREE ∧ y.m_state = block_state.FREE)) l

instance (l : List node) : Decidable (no_adjacent_free l) := by
  unfold no_adjacent_free; infer_instance

/-- The states of a memory manager constructed with `alignment` (and then given the
strategy `scheme`; the constructor itself sets `BEST_FIT`) that are reachable by calls
of `allocate` and `free` with `size_t` arguments, the sizes satisfying `ok`. The list
records `(returned offset, rounded size)` of every successful `allocate` so far, latest
first. A call that throws leaves the manager as it was, so only calls that return
change the state. -/
inductive ReachableBy (ok : Nat → Prop) (alignment : Nat) (scheme : allocation_scheme) :
    List (Nat × Nat) → MemoryManager → Prop where
  | fresh : ReachableBy ok alignment scheme []
      { MemoryManager.new alignment with m_scheme := scheme }
  | allocate {log : List (Nat × Nat)} {m m2 : MemoryManager} {size offset : Nat} :
      ReachableBy ok alignment scheme log m → size < 2 ^ 64 → ok size →
      m.allocate size = Except.ok (offset, m2) →
      ReachableBy ok alignment scheme
        ((offset, MemoryManager.align size m.m_alignment) :: log) m2
  | free {log : List (Nat × Nat)} {m m2 : MemoryManager} {offset : Nat} :
      ReachableBy ok alignment scheme log m → offset < 2 ^ 64 →
      m.free offset = Except.ok m2 →
      ReachableBy ok alignment scheme log m2

/-- The states reachable by any calls of `allocate` and `free`. -/
def Reachable (alignment : Nat) (scheme : allocation_scheme) (log : List (Nat × Nat))
    (m : MemoryManager) : Prop :=
  ReachableBy (fun _ => True) alignment scheme log m

/-- The states reachable by calls of `allocate` and `free` in which no rounded size
wraps. -/
def ReachableNoWrap (alignment : Nat) (scheme : allocation_scheme) (log : List (Nat × Nat))
    (m : MemoryManager) : Prop :=
  ReachableBy (fun size => align_no_wrap size alignment) alignment scheme log m

/-- The three calls `free(x)`, `free(y)`, `free(z)` in this order all return, and leave
exactly one block, which is FREE and spans the whole pool. -/
def frees_coalesce (m : MemoryManager) (x y z : Nat) : Prop :=
  ∃ n1 n2 n3, m.free x = Except.ok n1 ∧ n1.free y = Except.ok n2 ∧
    n2.free z = Except.ok n3 ∧ n3.m_node_list = [⟨SIZE_MAX, block_state.FREE⟩]

/-! ## The layout pass -/

/-- The exception of the layout pass: the `std::runtime_error` thrown by
`check_dependencies`, with its message. -/
inductive PassExn where
  | runtime_error (what : String)
deriving DecidableEq, Repr

/-- The function `MemoryLayout::check_dependencies(registered_passes)`. The classes
`CallBase` and `Liveness` are declared outside the sources at hand: a registered pass is
a value of the parameter `CallBase`, and `is_liveness pass` tells whether
`dynamic_pointer_cast<Liveness>(pass)` is non-null. -/
def MemoryLayout.check_dependencies {CallBase : Type} (is_liveness : CallBase → Bool)
    (registered_passes : List CallBase) : Except PassExn Unit :=
  let found_propagate_types :=
    registered_passes.foldl (fun found pass => if is_liveness pass then true else found) false
  if !found_propagate_types then
    Except.error
      (PassExn.runtime_error "Dependency 'PropagateTypes' not found for pass 'AssignTensors'")
  else
    Except.ok ()

/-- Modelled from the spec: the tensor view descriptor (its class is declared outside
the sources at hand), with its logical size and its assigned pool offset, unset until
the layout pass assigns one. -/
structure TensorView where
  size : Nat
  pool_offset : Option Nat
deriving DecidableEq, Repr

/-- Modelled from the spec: a node of the graph (its class is declared outside the
sources at hand), with the tensor views it newly requires and the tensor views that die
at it. -/
structure Node where
  newly_required : List TensorView
  dead : List TensorView
deriving DecidableEq, Repr

/-- The loop `for (Node* node : node_list) { }` of `run_on_call_list`: it visits the
nodes that remain and its body is empty, so the nodes (second argument) stay as they
are. -/
def run_on_call_list_loop : List Node → List Node → List Node
  | [], nodes => nodes
  | _ :: rest, nodes => run_on_call_list_loop rest nodes

/-- The function `MemoryLayout::run_on_call_list(node_list)`: the value it returns, and
the nodes as they are after the call. -/
def MemoryLayout.run_on_call_list (node_list : List Node) : Bool × List Node :=
  (false, run_on_call_list_loop node_list node_list)

/-- Every block of the list begins at a multiple of `a`, when the list begins at the
offset `start`. -/
def starts_aligned (a : Nat) : Nat → List node → Prop
  | _, [] => True
  | start, b :: l => a ∣ start ∧ starts_aligned a (start + b.m_size) l

/-! ## The state after a call that throws -/

/-- The loop of `MemoryManager::first_fit` with the list it leaves behind in every case:
the value of `found`, the value of `offset`, and the list after the loop. -/
def first_fit_scan (size : Nat) : Nat → List node → Bool × Nat × List node
  | offset, [] => (false, offset, [])
  | offset, it :: rest =>
    if it.m_state = block_state.FREE ∧ it.m_size ≥ size then
      if it.m_size > size then
        (true, offset,
          ⟨size, block_state.ALLOCATED⟩ :: { it with m_size := it.m_size - size } :: rest)
      else
        (true, offset, { it with m_state := block_state.ALLOCATED } :: rest)
    else
      let r := first_fit_scan size ((offset + it.m_size) % 2 ^ 64) rest
      (r.1, r.2.1, it :: r.2.2)

/-- The function `MemoryManager::first_fit(size)` with the state of the manager after
the call, also when it throws. -/
def MemoryManager.first_fit_run (m : MemoryManager) (size : Nat) :
    Except Exn Nat × MemoryManager :=
  let size := MemoryManager.align size m.m_alignment
  let r := first_fit_scan size 0 m.m_node_list
  let m1 := { m with m_node_list := r.2.2 }
  if !r.1 then
    (Except.error Exn.bad_alloc, m1)
  else
    (Except.ok r.2.1,
      { m1 with m_max_allocated := max m1.m_max_allocated ((r.2.1 + size) % 2 ^ 64) })

/-- The function `MemoryManager::best_fit(size)` with the state of the manager after
the call, also when it throws (its loop changes no member). -/
def MemoryManager.best_fit_run (m : MemoryManager) (size : Nat) :
    Except Exn Nat × MemoryManager :=
  let size := MemoryManager.align size m.m_alignment
  let v := best_fit_loop size m.m_node_list 0 0
    { min_delta := SIZE_MAX, best_fit := none, best_offset := 0 }
  match v.best_fit with
  | none => (Except.error Exn.bad_alloc, m)
  | some idx =>
    let l := if v.min_delta = 0 then flip_at m.m_node_list idx else split_at size m.m_node_list idx
    (Except.ok v.best_offset,
      { m with
        m_node_list := l
        m_max_allocated := max m.m_max_allocated ((v.best_offset + size) % 2 ^ 64) })

/-- The function `MemoryManager::allocate(size)` with the state of the manager after the
call, also when it throws. -/
def MemoryManager.allocate_run (m : MemoryManager) (size : Nat) :
    Except Exn Nat × MemoryManager :=
  match m.m_scheme with
  | allocation_scheme.FIRST_FIT => m.first_fit_run size
  | allocation_scheme.BEST_FIT => m.best_fit_run size

/-- The loop of `MemoryManager::free` with the list it leaves behind in every case: the
value of `found` and the list after the loop. -/
def free_scan (offset : Nat) : List node → Nat → List node → Bool × List node
  | rpre, _, [] => (false, rpre.reverse)
  | rpre, search_offset, it :: rest =>
    if offset = search_offset then
      (true, free_here rpre it rest)
    else
      free_scan offset (it :: rpre) ((search_offset + it.m_size) % 2 ^ 64) rest

/-- The function `MemoryManager::free(offset)` with the state of the manager after the
call, also when it throws. -/
def MemoryManager.free_run (m : MemoryManager) (offset : Nat) :
    Except Exn Unit × MemoryManager :=
  let r := free_scan offset [] 0 m.m_node_list
  let m1 := { m with m_node_list := r.2 }
  if !r.1 then
    (Except.error Exn.bad_free, m1)
  else
    (Except.ok (), m1)

/-! ## Live allocations -/

/-- The byte ranges `(offset, size)` of the ALLOCATED blocks of a list that begins at
the offset `start`, in sequence order. -/
def ranges : Nat → List node → List (Nat × Nat)
  | _, [] => []
  | start, b :: l =>
    if b.m_state = block_state.ALLOCATED then
      (start, b.m_size) :: ranges (start + b.m_size) l
    else
      ranges (start + b.m_size) l

/-- The live allocations without the first entry equal to `p`. -/
def remove_live (p : Nat × Nat) : List (Nat × Nat) → List (Nat × Nat)
  | [] => []
  | q :: live => if q = p then live else q :: remove_live p live

/-- The states of a memory manager constructed with `alignment` (and given the strategy
`scheme`) that are reachable by calls of `allocate` whose rounded size does not wrap and
calls of `free` on an offset that an earlier `allocate` returned and that has not been
freed since. The list holds the live allocations, `(returned offset, rounded size)`. -/
inductive Disciplined (alignment : Nat) (scheme : allocation_scheme) :
    List (Nat × Nat) → MemoryManager → Prop where
  | fresh : Disciplined alignment scheme []
      { MemoryManager.new alignment with m_scheme := scheme }
  | allocate {live : List (Nat × Nat)} {m m2 : MemoryManager} {size offset : Nat} :
      Disciplined alignment scheme live m → size < 2 ^ 64 →
      align_no_wrap size alignment →
      m.allocate size = Except.ok (offset, m2) →
      Disciplined alignment scheme
        ((offset, MemoryManager.align size m.m_alignment) :: live) m2
  | free {live : List (Nat × Nat)} {m m2 : MemoryManager} {offset rounded : Nat} :
      Disciplined alignment scheme live m → (offset, rounded) ∈ live →
      m.free offset = Except.ok m2 →
      Disciplined alignment scheme (remove_live (offset, rounded) live) m2

/-! ## Basic lemmas -/

@[simp] theorem total_nil : total [] = 0 := rfl

@[simp] theorem total_cons (b : node) (l : List node) : total (b :: l) = b.m_size + total l := rfl

@[simp] theorem total_append (l₁ l₂ : List node) : total (l₁ ++ l₂) = total l₁ + total l₂ := by
  induction l₁ with
  | nil => simp
  | cons b l ih => simp [ih, Nat.add_assoc]

theorem align_pos {size alignment : Nat} (ha : 0 < alignment)
    (hw : align_no_wrap size alignment) : 0 < MemoryManager.align size alignment := by
  unfold MemoryManager.align
  by_cases h0 : size = 0
  · simp [h0, ha]
  · simp only [h0, if_false]
    rcases hw with h | h | h
    · exact absurd h h0
    · simp [h]; omega
    · by_cases hr : size % alignment > 0
      · simp only [hr, if_true]
        rw [Nat.mod_eq_of_lt h]; omega
      · simp only [hr, if_false]; omega

/-- What the loop of `first_fit` does: it stops at the first block that fits. -/
theorem first_fit_loop_spec (size : Nat) :
    ∀ (l : List node) (offset : Nat), offset < 2 ^ 64 → (∃ b ∈ l, fits size b) →
      ∃ pre it post, l = pre ++ it :: post ∧ (∀ c ∈ pre, ¬ fits size c) ∧ fits size it ∧
        first_fit_loop size offset l = some ((offset + total pre) % 2 ^ 64,
          if size < it.m_size then
            pre ++ ⟨size, block_state.ALLOCATED⟩ :: ⟨it.m_size - size, block_state.FREE⟩ :: post
          else pre ++ ⟨it.m_size, block_state.ALLOCATED⟩ :: post) := by
  intro l
  induction l with
  | nil => intro _ _ h; simp at h
  | cons b l ih =>
    intro offset ho h
    by_cases hb : fits size b
    · refine ⟨[], b, l, rfl, by simp, hb, ?_⟩
      obtain ⟨sz, st⟩ := b
      obtain ⟨hb1, hb2⟩ := hb
      simp only at hb1 hb2
      subst hb1
      by_cases hlt : size < sz
      · simp [-Nat.reducePow, first_fit_loop, hb2, hlt, Nat.mod_eq_of_lt ho]
      · simp [-Nat.reducePow, first_fit_loop, hb2, hlt, Nat.mod_eq_of_lt ho]
    · have h2 : ∃ c ∈ l, fits size c := by
        obtain ⟨c, hc, hf⟩ := h
        rcases List.mem_cons.1 hc with rfl | hc
        · exact absurd hf hb
        · exact ⟨c, hc, hf⟩
      obtain ⟨pre, it, post, hl, hpre, hit, hres⟩ :=
        ih ((offset + b.m_size) % 2 ^ 64) (Nat.mod_lt _ (by norm_num)) h2
      refine ⟨b :: pre, it, post, by simp [hl], ?_, hit, ?_⟩
      · intro c hc
        rcases List.mem_cons.1 hc with rfl | hc
        · exact hb
        · exact hpre c hc
      · have hb2 : ¬ (b.m_state = block_state.FREE ∧ b.m_size ≥ size) := hb
        have e : ((offset + b.m_size) % 2 ^ 64 + total pre) % 2 ^ 64
            = (offset + total (b :: pre)) % 2 ^ 64 := by
          rw [Nat.mod_add_mod, total_cons, Nat.add_assoc]
        rw [first_fit_loop, if_neg hb2, hres, e]
        by_cases hlt : size < it.m_size <;> simp [-Nat.reducePow, hlt]

theorem total_mod_of_le {pre post : List node} (h : total (pre ++ post) ≤ SIZE_MAX) :
    total pre % 2 ^ 64 = total pre := by
  apply Nat.mod_eq_of_lt
  rw [total_append] at h
  unfold SIZE_MAX at h
  omega

/-- C1: FIRST_FIT allocation. For every block list and every alignment `a > 0`, with
`r = align size a`: if some FREE block has size `>= r`, then `first_fit` succeeds and
returns the prefix-sum offset (as a `size_t`, and the plain sum of the sizes of the
preceding blocks whenever the list fits the pool) of the first such block in sequence
order; when that block is larger than `r`, a new ALLOCATED block of size exactly `r` is
inserted immediately before it and its size is reduced by `r`; when it is exactly `r`,
its state is flipped to ALLOCATED and no block is inserted; every other block is
unchanged. -/
theorem first_fit_takes_first_fitting_block (m : MemoryManager) (size : Nat)
    (_ha : 0 < m.m_alignment)
    (h : ∃ b ∈ m.m_node_list, b.m_state = block_state.FREE ∧
      MemoryManager.align size m.m_alignment ≤ b.m_size) :
    ∃ pre it post,
      m.m_node_list = pre ++ it :: post ∧
      it.m_state = block_state.FREE ∧
      MemoryManager.align size m.m_alignment ≤ it.m_size ∧
      (∀ c ∈ pre, ¬ (c.m_state = block_state.FREE ∧
        MemoryManager.align size m.m_alignment ≤ c.m_size)) ∧
      (total m.m_node_list ≤ SIZE_MAX → total pre % 2 ^ 64 = total pre) ∧
      ∃ m2, m.first_fit size = Except.ok (total pre % 2 ^ 64, m2) ∧
        m2.m_node_list =
          if MemoryManager.align size m.m_alignment < it.m_size then
            pre ++ ⟨MemoryManager.align size m.m_alignment, block_state.ALLOCATED⟩ ::
              ⟨it.m_size - MemoryManager.align size m.m_alignment, block_state.FREE⟩ :: post
          else pre ++ ⟨it.m_size, block_state.ALLOCATED⟩ :: post := by
  obtain ⟨pre, it, post, hl, hpre, hit, hres⟩ :=
    first_fit_loop_spec (MemoryManager.align size m.m_alignment) m.m_node_list 0
      (by norm_num) h
  refine ⟨pre, it, post, hl, hit.1, hit.2, hpre, ?_, ?_⟩
  · intro hfit
    rw [hl] at hfit
    exact total_mod_of_le hfit
  · rw [Nat.zero_add] at hres
    simp only [MemoryManager.first_fit, hres]
    exact ⟨_, rfl, rfl⟩

/-- The witness of C1: FREE blocks `[100, 50, 200]`, alignment 1, FIRST_FIT:
`allocate(40)` returns offset 0. -/
theorem first_fit_takes_first_fitting_block_witness :
    (MemoryManager.mk 1 allocation_scheme.FIRST_FIT
        [⟨100, block_state.FREE⟩, ⟨50, block_state.FREE⟩, ⟨200, block_state.FREE⟩] 0).allocate 40
      = Except.ok (0, MemoryManager.mk 1 allocation_scheme.FIRST_FIT
        [⟨40, block_state.ALLOCATED⟩, ⟨60, block_state.FREE⟩, ⟨50, block_state.FREE⟩,
          ⟨200, block_state.FREE⟩] 40) ∧
    ∃ pre it post, [⟨100, block_state.FREE⟩, ⟨50, block_state.FREE⟩, ⟨200, block_state.FREE⟩]
      = pre ++ it :: post ∧
      ∃ m2, (MemoryManager.mk 1 allocation_scheme.FIRST_FIT
        [⟨100, block_state.FREE⟩, ⟨50, block_state.FREE⟩, ⟨200, block_state.FREE⟩] 0).first_fit 40
        = Except.ok (total pre % 2 ^ 64, m2) := by
  refine ⟨rfl, ?_⟩
  obtain ⟨pre, it, post, hl, _, _, _, _, m2, h2, _⟩ :=
    first_fit_takes_first_fitting_block
      (MemoryManager.mk 1 allocation_scheme.FIRST_FIT
        [⟨100, block_state.FREE⟩, ⟨50, block_state.FREE⟩, ⟨200, block_state.FREE⟩] 0) 40
      (by decide) ⟨⟨100, block_state.FREE⟩, by simp, rfl, by decide⟩
  exact ⟨pre, it, post, hl, m2, h2⟩

theorem flip_at_append (pre : List node) (it : node) (post : List node) :
    flip_at (pre ++ it :: post) pre.length
      = pre ++ { it with m_state := block_state.ALLOCATED } :: post := by
  induction pre with
  | nil => rfl
  | cons b pre ih => simp [flip_at, ih]

theorem split_at_append (size : Nat) (pre : List node) (it : node) (post : List node) :
    split_at size (pre ++ it :: post) pre.length
      = pre ++ ⟨size, block_state.ALLOCATED⟩ :: { it with m_size := it.m_size - size } :: post := by
  induction pre with
  | nil => rfl
  | cons b pre ih => simp [split_at, ih]

/-- What the loop of `best_fit` does: either no block of the list beats the incoming
`min_delta` and the variables are unchanged, or the variables describe the earliest
block of least slack. -/
theorem best_fit_loop_spec (size : Nat) :
    ∀ (l : List node) (idx offset : Nat) (v : best_fit_vars), offset < 2 ^ 64 →
      ((∀ c ∈ l, fits size c → v.min_delta ≤ c.m_size - size) ∧
        best_fit_loop size l idx offset v = v) ∨
      (∃ pre it post, l = pre ++ it :: post ∧ fits size it ∧
        it.m_size - size < v.min_delta ∧
        (∀ c ∈ pre, fits size c → it.m_size - size < c.m_size - size) ∧
        (∀ c ∈ post, fits size c → it.m_size - size ≤ c.m_size - size) ∧
        best_fit_loop size l idx offset v =
          { min_delta := it.m_size - size, best_fit := some (idx + pre.length),
            best_offset := (offset + total pre) % 2 ^ 64 }) := by
  intro l
  induction l with
  | nil => intro idx offset v _; left; simp [best_fit_loop]
  | cons b l ih =>
    intro idx offset v ho
    have ho2 : (offset + b.m_size) % 2 ^ 64 < 2 ^ 64 := Nat.mod_lt _ (by norm_num)
    have e : ∀ pre : List node, ((offset + b.m_size) % 2 ^ 64 + total pre) % 2 ^ 64
        = (offset + total (b :: pre)) % 2 ^ 64 := by
      intro pre
      rw [Nat.mod_add_mod, total_cons, Nat.add_assoc]
    by_cases hb : b.m_state = block_state.FREE ∧ b.m_size ≥ size
    · by_cases hd : b.m_size - size < v.min_delta
      · rw [best_fit_loop, if_pos hb]
        simp only [hd, if_true]
        right
        rcases ih (idx + 1) ((offset + b.m_size) % 2 ^ 64)
          { min_delta := b.m_size - size, best_fit := some idx, best_offset := offset } ho2
          with ⟨hall, hres⟩ | ⟨pre, it, post, hl, hit, hlt, hpre, hpost, hres⟩
        · refine ⟨[], b, l, rfl, hb, hd, by simp, hall, ?_⟩
          rw [hres]
          simp [-Nat.reducePow, Nat.mod_eq_of_lt ho]
        · refine ⟨b :: pre, it, post, by simp [hl], hit, lt_trans hlt hd, ?_, hpost, ?_⟩
          · intro c hc hfc
            rcases List.mem_cons.1 hc with rfl | hc
            · exact hlt
            · exact hpre c hc hfc
          · rw [hres, e]
            simp [Nat.add_assoc, Nat.add_comm 1]
      · rw [best_fit_loop, if_pos hb]
        simp only [hd, if_false]
        rcases ih (idx + 1) ((offset + b.m_size) % 2 ^ 64) v ho2
          with ⟨hall, hres⟩ | ⟨pre, it, post, hl, hit, hlt, hpre, hpost, hres⟩
        · left
          refine ⟨?_, hres⟩
          intro c hc hfc
          rcases List.mem_cons.1 hc with rfl | hc
          · exact Nat.le_of_not_lt hd
          · exact hall c hc hfc
        · right
          refine ⟨b :: pre, it, post, by simp [hl], hit, hlt, ?_, hpost, ?_⟩
          · intro c hc hfc
            rcases List.mem_cons.1 hc with rfl | hc
            · exact lt_of_lt_of_le hlt (Nat.le_of_not_lt hd)
            · exact hpre c hc hfc
          · rw [hres, e]
            simp [Nat.add_assoc, Nat.add_comm 1]
    · rw [best_fit_loop, if_neg hb]
      rcases ih (idx + 1) ((offset + b.m_size) % 2 ^ 64) v ho2
        with ⟨hall, hres⟩ | ⟨pre, it, post, hl, hit, hlt, hpre, hpost, hres⟩
      · left
        refine ⟨?_, hres⟩
        intro c hc hfc
        rcases List.mem_cons.1 hc with rfl | hc
        · exact absurd hfc hb
        · exact hall c hc hfc
      · right
        refine ⟨b :: pre, it, post, by simp [hl], hit, hlt, ?_, hpost, ?_⟩
        · intro c hc hfc
          rcases List.mem_cons.1 hc with rfl | hc
          · exact absurd hfc hb
          · exact hpre c hc hfc
        · rw [hres, e]
          simp [Nat.add_assoc, Nat.add_comm 1]

/-- The result of `best_fit` once its loop has settled on the block `it`. -/
theorem best_fit_of_loop (m : MemoryManager) (size : Nat) (pre : List node) (it : node)
    (post : List node) (hl : m.m_node_list = pre ++ it :: post)
    (hit : fits (MemoryManager.align size m.m_alignment) it)
    (hres : best_fit_loop (MemoryManager.align size m.m_alignment) m.m_node_list 0 0
        { min_delta := SIZE_MAX, best_fit := none, best_offset := 0 } =
      { min_delta := it.m_size - MemoryManager.align size m.m_alignment,
        best_fit := some (0 + pre.length), best_offset := (0 + total pre) % 2 ^ 64 }) :
    m.best_fit size = Except.ok (total pre % 2 ^ 64,
      { m with
        m_node_list := pre ++ carve (MemoryManager.align size m.m_alignment) it ++ post
        m_max_allocated := max m.m_max_allocated
          ((total pre % 2 ^ 64 + MemoryManager.align size m.m_alignment) % 2 ^ 64) }) := by
  obtain ⟨sz, st⟩ := it
  obtain ⟨h1, h2⟩ := hit
  simp only at h1 h2
  subst h1
  simp only [MemoryManager.best_fit, hres, Nat.zero_add]
  by_cases hlt : MemoryManager.align size m.m_alignment < sz
  · have hne : ¬ (sz - MemoryManager.align size m.m_alignment = 0) := by omega
    simp only [hne, if_false, hl, split_at_append, carve, hlt, if_true]
    simp
  · have he : sz - MemoryManager.align size m.m_alignment = 0 := by omega
    simp only [he, if_true, hl, flip_at_append, carve, hlt, if_false]
    simp

/-- C2: BEST_FIT allocation. For every block list (of `size_t` sizes), every alignment
`a > 0` and every request whose rounded size `r = align size a` does not overflow: if
some FREE block has size `>= r`, then `best_fit` succeeds and returns the prefix-sum
offset (as a `size_t`, and the plain sum whenever the list fits the pool) of the FREE
block of smallest slack `m_size - r` among the FREE blocks of size `>= r`, the earliest
one among those of equal smallest slack; that block is split (a new ALLOCATED block of
size `r` inserted immediately before it, its size reduced by `r`) when the slack is
positive and flipped to ALLOCATED when the slack is zero; every other block is
unchanged. -/
theorem best_fit_takes_tightest_block (m : MemoryManager) (size : Nat)
    (ha : 0 < m.m_alignment) (hw : align_no_wrap size m.m_alignment)
    (hsz : ∀ b ∈ m.m_node_list, b.m_size ≤ SIZE_MAX)
    (h : ∃ b ∈ m.m_node_list, b.m_state = block_state.FREE ∧
      MemoryManager.align size m.m_alignment ≤ b.m_size) :
    ∃ pre it post,
      m.m_node_list = pre ++ it :: post ∧
      it.m_state = block_state.FREE ∧
      MemoryManager.align size m.m_alignment ≤ it.m_size ∧
      (∀ c ∈ m.m_node_list, c.m_state = block_state.FREE →
        MemoryManager.align size m.m_alignment ≤ c.m_size →
        it.m_size - MemoryManager.align size m.m_alignment
          ≤ c.m_size - MemoryManager.align size m.m_alignment) ∧
      (∀ c ∈ pre, c.m_state = block_state.FREE →
        MemoryManager.align size m.m_alignment ≤ c.m_size →
        it.m_size - MemoryManager.align size m.m_alignment
          < c.m_size - MemoryManager.align size m.m_alignment) ∧
      (total m.m_node_list ≤ SIZE_MAX → total pre % 2 ^ 64 = total pre) ∧
      ∃ m2, m.best_fit size = Except.ok (total pre % 2 ^ 64, m2) ∧
        m2.m_node_list =
          if 0 < it.m_size - MemoryManager.align size m.m_alignment then
            pre ++ ⟨MemoryManager.align size m.m_alignment, block_state.ALLOCATED⟩ ::
              ⟨it.m_size - MemoryManager.align size m.m_alignment, block_state.FREE⟩ :: post
          else pre ++ ⟨it.m_size, block_state.ALLOCATED⟩ :: post := by
  have hr := align_pos ha hw
  rcases best_fit_loop_spec (MemoryManager.align size m.m_alignment) m.m_node_list 0 0
      { min_delta := SIZE_MAX, best_fit := none, best_offset := 0 } (by norm_num)
    with ⟨hall, _⟩ | ⟨pre, it, post, hl, hit, _, hpre, hpost, hres⟩
  · exfalso
    obtain ⟨b, hb, hb1, hb2⟩ := h
    have h1 := hall b hb ⟨hb1, hb2⟩
    have h2 := hsz b hb
    simp only at h1
    omega
  · refine ⟨pre, it, post, hl, hit.1, hit.2, ?_, ?_, ?_, ?_⟩
    · intro c hc hc1 hc2
      rw [hl] at hc
      rcases List.mem_append.1 hc with hc | hc
      · exact Nat.le_of_lt (hpre c hc ⟨hc1, hc2⟩)
      · rcases List.mem_cons.1 hc with rfl | hc
        · exact Nat.le_refl _
        · exact hpost c hc ⟨hc1, hc2⟩
    · intro c hc hc1 hc2
      exact hpre c hc ⟨hc1, hc2⟩
    · intro hfit
      rw [hl] at hfit
      exact total_mod_of_le hfit
    · refine ⟨_, best_fit_of_loop m size pre it post hl hit hres, ?_⟩
      have h2 := hit.2
      by_cases hlt : MemoryManager.align size m.m_alignment < it.m_size
      · have hp : 0 < it.m_size - MemoryManager.align size m.m_alignment := by omega
        simp [carve, hlt, hp]
      · have hp : ¬ 0 < it.m_size - MemoryManager.align size m.m_alignment := by omega
        simp only [carve, hlt, hp, if_false]
        simp

/-- The witness of C2: FREE blocks `[100, 50, 200]`, alignment 1, BEST_FIT:
`allocate(40)` returns offset 100. -/
theorem best_fit_takes_tightest_block_witness :
    (MemoryManager.mk 1 allocation_scheme.BEST_FIT
        [⟨100, block_state.FREE⟩, ⟨50, block_state.FREE⟩, ⟨200, block_state.FREE⟩] 0).allocate 40
      = Except.ok (100, MemoryManager.mk 1 allocation_scheme.BEST_FIT
        [⟨100, block_state.FREE⟩, ⟨40, block_state.ALLOCATED⟩, ⟨10, block_state.FREE⟩,
          ⟨200, block_state.FREE⟩] 140) ∧
    ∃ pre it post, [⟨100, block_state.FREE⟩, ⟨50, block_state.FREE⟩, ⟨200, block_state.FREE⟩]
      = pre ++ it :: post ∧
      ∃ m2, (MemoryManager.mk 1 allocation_scheme.BEST_FIT
        [⟨100, block_state.FREE⟩, ⟨50, block_state.FREE⟩, ⟨200, block_state.FREE⟩] 0).best_fit 40
        = Except.ok (total pre % 2 ^ 64, m2) := by
  refine ⟨rfl, ?_⟩
  obtain ⟨pre, it, post, hl, _, _, _, _, _, m2, h2, _⟩ :=
    best_fit_takes_tightest_block
      (MemoryManager.mk 1 allocation_scheme.BEST_FIT
        [⟨100, block_state.FREE⟩, ⟨50, block_state.FREE⟩, ⟨200, block_state.FREE⟩] 0) 40
      (by decide) (by decide) (by simp [SIZE_MAX])
      ⟨⟨100, block_state.FREE⟩, by simp, rfl, by decide⟩
  exact ⟨pre, it, post, hl, m2, h2⟩

/-- The loop of `free` stops at the first block whose running offset is `offset`. -/
theorem free_loop_spec (offset : Nat) :
    ∀ (mid rpre : List node) (so : Nat) (it : node) (post : List node), so < 2 ^ 64 →
      (∀ k < mid.length, (so + total (mid.take k)) % 2 ^ 64 ≠ offset) →
      (so + total mid) % 2 ^ 64 = offset →
      free_loop offset rpre so (mid ++ it :: post)
        = some (free_here (mid.reverse ++ rpre) it post) := by
  intro mid
  induction mid with
  | nil =>
    intro rpre so it post hso _ heq
    have : offset = so := by
      rw [← heq, total_nil, Nat.add_zero, Nat.mod_eq_of_lt hso]
    simp [free_loop, this]
  | cons c mid ih =>
    intro rpre so it post hso hfirst heq
    have hne : ¬ offset = so := by
      have := hfirst 0 (by simp)
      rw [List.take_zero, total_nil, Nat.add_zero, Nat.mod_eq_of_lt hso] at this
      exact fun h => this h.symm
    have e : ∀ l : List node, ((so + c.m_size) % 2 ^ 64 + total l) % 2 ^ 64
        = (so + total (c :: l)) % 2 ^ 64 := by
      intro l
      rw [Nat.mod_add_mod, total_cons, Nat.add_assoc]
    rw [List.cons_append, free_loop, if_neg hne,
      ih (c :: rpre) ((so + c.m_size) % 2 ^ 64) it post (Nat.mod_lt _ (by norm_num))]
    · simp
    · intro k hk
      rw [e]
      have := hfirst (k + 1) (by simpa using hk)
      simpa using this
    · rw [e]; exact heq

theorem absorbed_before_le (pre : List node) : absorbed_before pre ≤ total pre := by
  rcases List.eq_nil_or_concat pre with rfl | ⟨before, p, rfl⟩
  · simp [absorbed_before]
  · simp only [absorbed_before, List.getLast?_append, List.getLast?_singleton]
    by_cases hp : p.m_state = block_state.FREE <;> simp [hp]

theorem absorbed_after_le (post : List node) : absorbed_after post ≤ total post := by
  cases post with
  | nil => simp [absorbed_after]
  | cons n rest =>
    by_cases hn : n.m_state = block_state.FREE <;> simp [absorbed_after, hn]

/-- The branch of `free` at the block `it`, in the words of the statement of `free`. -/
theorem free_here_eq (pre : List node) (it : node) (post : List node)
    (hit : it.m_size < 2 ^ 64) :
    free_here pre.reverse it post
      = kept_before pre ++
          ⟨(absorbed_before pre + it.m_size + absorbed_after post) % 2 ^ 64,
            block_state.FREE⟩ :: kept_after post := by
  have hm := Nat.mod_eq_of_lt hit
  rcases List.eq_nil_or_concat pre with rfl | ⟨before, p, rfl⟩
  · cases post with
    | nil => simp [-Nat.reducePow, free_here, kept_before, absorbed_before, kept_after,
        absorbed_after, hm]
    | cons n rest =>
      by_cases hn : n.m_state = block_state.FREE <;>
        simp [-Nat.reducePow, free_here, kept_before, absorbed_before, kept_after,
          absorbed_after, hn, hm]
  · by_cases hp : p.m_state = block_state.FREE
    · cases post with
      | nil => simp [-Nat.reducePow, free_here, kept_before, absorbed_before, kept_after,
          absorbed_after, hp, Nat.add_comm]
      | cons n rest =>
        by_cases hn : n.m_state = block_state.FREE <;>
          simp [-Nat.reducePow, free_here, kept_before, absorbed_before, kept_after,
            absorbed_after, hn, hp, Nat.add_comm]
    · cases post with
      | nil => simp [-Nat.reducePow, free_here, kept_before, absorbed_before, kept_after,
          absorbed_after, hp, hm]
      | cons n rest =>
        by_cases hn : n.m_state = block_state.FREE <;>
          simp [-Nat.reducePow, free_here, kept_before, absorbed_before, kept_after,
            absorbed_after, hn, hp, hm]

/-- The call `free(offset)` when `B` is the first block at the `size_t` offset. -/
theorem free_first_block (m : MemoryManager) (pre : List node) (B : node)
    (post : List node) (offset : Nat)
    (hl : m.m_node_list = pre ++ B :: post)
    (hB : B.m_size < 2 ^ 64)
    (ho : total pre % 2 ^ 64 = offset)
    (hfirst : ∀ k < pre.length, total (pre.take k) % 2 ^ 64 ≠ offset) :
    m.free offset = Except.ok
      { m with
        m_node_list := kept_before pre ++
          ⟨(absorbed_before pre + B.m_size + absorbed_after post) % 2 ^ 64,
            block_state.FREE⟩ :: kept_after post } := by
  have h := free_loop_spec offset pre [] 0 B post (by norm_num)
    (by simpa using hfirst) (by simpa using ho)
  simp only [MemoryManager.free, hl, h, List.append_nil, free_here_eq pre B post hB]

/-- C3 (amended): `free(offset)` postcondition. For every block list of `size_t` sizes
in which `B` is the first block that begins at `offset` (`offset` is the `size_t` sum of
the sizes of the blocks before `B`, and of no shorter run of leading blocks), `free`
succeeds and the resulting list is the original list with `B`, its immediate
predecessor if that one is FREE, and its immediate successor if that one is FREE,
replaced by a single FREE block whose size is the `size_t` sum of the replaced blocks'
sizes (their plain sum whenever the list fits the pool); all other blocks keep their
size, state and relative order, and the high-water mark is unchanged. -/
theorem free_merges_first_block_at_offset (m : MemoryManager) (pre : List node) (B : node)
    (post : List node) (offset : Nat)
    (hl : m.m_node_list = pre ++ B :: post)
    (hB : B.m_size ≤ SIZE_MAX)
    (ho : offset = total pre % 2 ^ 64)
    (hfirst : ∀ k < pre.length, total (pre.take k) % 2 ^ 64 ≠ offset) :
    m.free offset = Except.ok
      { m with
        m_node_list := kept_before pre ++
          ⟨(absorbed_before pre + B.m_size + absorbed_after post) % 2 ^ 64,
            block_state.FREE⟩ :: kept_after post } ∧
    (total m.m_node_list ≤ SIZE_MAX →
      (absorbed_before pre + B.m_size + absorbed_after post) % 2 ^ 64
        = absorbed_before pre + B.m_size + absorbed_after post) := by
  constructor
  · have hB2 : B.m_size < 2 ^ 64 := by unfold SIZE_MAX at hB; omega
    exact free_first_block m pre B post offset hl hB2 ho.symm hfirst
  · intro hfit
    rw [hl, total_append, total_cons] at hfit
    have h1 := absorbed_before_le pre
    have h2 := absorbed_after_le post
    apply Nat.mod_eq_of_lt
    unfold SIZE_MAX at hfit
    omega

/-- The witness of C3 (amended): freeing the block at offset 5 of
`[2 ALLOCATED, 3 FREE, 4 ALLOCATED, 5 FREE, 6 ALLOCATED]` merges it with both
neighbours. -/
theorem free_merges_first_block_at_offset_witness :
    (MemoryManager.mk 1 allocation_scheme.BEST_FIT
      [⟨2, block_state.ALLOCATED⟩, ⟨3, block_state.FREE⟩, ⟨4, block_state.ALLOCATED⟩,
        ⟨5, block_state.FREE⟩, ⟨6, block_state.ALLOCATED⟩] 20).free 5
      = Except.ok (MemoryManager.mk 1 allocation_scheme.BEST_FIT
        [⟨2, block_state.ALLOCATED⟩, ⟨12, block_state.FREE⟩, ⟨6, block_state.ALLOCATED⟩] 20) :=
  (free_merges_first_block_at_offset
    (MemoryManager.mk 1 allocation_scheme.BEST_FIT
      [⟨2, block_state.ALLOCATED⟩, ⟨3, block_state.FREE⟩, ⟨4, block_state.ALLOCATED⟩,
        ⟨5, block_state.FREE⟩, ⟨6, block_state.ALLOCATED⟩] 20)
    [⟨2, block_state.ALLOCATED⟩, ⟨3, block_state.FREE⟩] ⟨4, block_state.ALLOCATED⟩
    [⟨5, block_state.FREE⟩, ⟨6, block_state.ALLOCATED⟩] 5 rfl (by decide) (by decide)
    (by decide)).1

/-- The counterexample to C3 as stated: with alignment 2, `allocate(1)` and then
`allocate(2^64 - 1)` (whose rounded size wraps to 0) lead to the list
`[2 ALLOCATED, 0 ALLOCATED, 2^64 - 3 FREE]`, in which the third block `B` begins at
offset 2, the sum of the sizes before it. The statement promises `free(2)` leaves the
list as it is (`B` is FREE already and has no FREE neighbour); `free(2)` frees the
zero-size block, the first one that begins at offset 2, and merges it with `B`. -/
theorem free_block_at_offset_counterexample :
    (MemoryManager.new 2).allocate 1
      = Except.ok (0, MemoryManager.mk 2 allocation_scheme.BEST_FIT
          [⟨2, block_state.ALLOCATED⟩, ⟨18446744073709551613, block_state.FREE⟩] 2) ∧
    (MemoryManager.mk 2 allocation_scheme.BEST_FIT
        [⟨2, block_state.ALLOCATED⟩, ⟨18446744073709551613, block_state.FREE⟩] 2).allocate
          18446744073709551615
      = Except.ok (2, MemoryManager.mk 2 allocation_scheme.BEST_FIT
          [⟨2, block_state.ALLOCATED⟩, ⟨0, block_state.ALLOCATED⟩,
            ⟨18446744073709551613, block_state.FREE⟩] 2) ∧
    total [⟨2, block_state.ALLOCATED⟩, ⟨0, block_state.ALLOCATED⟩] = 2 ∧
    kept_before [⟨2, block_state.ALLOCATED⟩, ⟨0, block_state.ALLOCATED⟩] ++
        ⟨absorbed_before [⟨2, block_state.ALLOCATED⟩, ⟨0, block_state.ALLOCATED⟩]
          + 18446744073709551613 + absorbed_after [], block_state.FREE⟩ :: kept_after []
      = [⟨2, block_state.ALLOCATED⟩, ⟨0, block_state.ALLOCATED⟩,
          ⟨18446744073709551613, block_state.FREE⟩] ∧
    (MemoryManager.mk 2 allocation_scheme.BEST_FIT
        [⟨2, block_state.ALLOCATED⟩, ⟨0, block_state.ALLOCATED⟩,
          ⟨18446744073709551613, block_state.FREE⟩] 2).free 2
      = Except.ok (MemoryManager.mk 2 allocation_scheme.BEST_FIT
          [⟨2, block_state.ALLOCATED⟩, ⟨18446744073709551613, block_state.FREE⟩] 2) ∧
    (MemoryManager.mk 2 allocation_scheme.BEST_FIT
        [⟨2, block_state.ALLOCATED⟩, ⟨0, block_state.ALLOCATED⟩,
          ⟨18446744073709551613, block_state.FREE⟩] 2).free 2
      ≠ Except.ok (MemoryManager.mk 2 allocation_scheme.BEST_FIT
          [⟨2, block_state.ALLOCATED⟩, ⟨0, block_state.ALLOCATED⟩,
            ⟨18446744073709551613, block_state.FREE⟩] 2) := by
  refine ⟨rfl, rfl, rfl, rfl, rfl, ?_⟩
  intro h
  have h2 : (MemoryManager.mk 2 allocation_scheme.BEST_FIT
        [⟨2, block_state.ALLOCATED⟩, ⟨0, block_state.ALLOCATED⟩,
          ⟨18446744073709551613, block_state.FREE⟩] 2).free 2
      = Except.ok (MemoryManager.mk 2 allocation_scheme.BEST_FIT
          [⟨2, block_state.ALLOCATED⟩, ⟨18446744073709551613, block_state.FREE⟩] 2) := rfl
  rw [h2] at h
  exact absurd (Except.ok.inj h) (by decide)

/-! ## The shape of a successful call -/

theorem first_fit_loop_none (size : Nat) :
    ∀ (l : List node) (offset : Nat), (∀ b ∈ l, ¬ fits size b) →
      first_fit_loop size offset l = none := by
  intro l
  induction l with
  | nil => intro _ _; rfl
  | cons b l ih =>
    intro offset h
    have hb : ¬ (b.m_state = block_state.FREE ∧ b.m_size ≥ size) := h b (by simp)
    rw [first_fit_loop, if_neg hb, ih _ (fun c hc => h c (by simp [hc]))]

theorem carve_eq (size : Nat) (pre : List node) (it : node) (post : List node) :
    (if size < it.m_size then
        pre ++ (⟨size, block_state.ALLOCATED⟩ : node) ::
          ⟨it.m_size - size, block_state.FREE⟩ :: post
      else pre ++ ⟨it.m_size, block_state.ALLOCATED⟩ :: post)
      = pre ++ carve size it ++ post := by
  unfold carve
  split <;> simp

theorem first_fit_ok_shape {m m2 : MemoryManager} {size offset : Nat}
    (h : m.first_fit size = Except.ok (offset, m2)) :
    ∃ pre it post, m.m_node_list = pre ++ it :: post ∧
      fits (MemoryManager.align size m.m_alignment) it ∧
      offset = total pre % 2 ^ 64 ∧
      m2 = { m with
        m_node_list := pre ++ carve (MemoryManager.align size m.m_alignment) it ++ post
        m_max_allocated := max m.m_max_allocated
          ((offset + MemoryManager.align size m.m_alignment) % 2 ^ 64) } := by
  by_cases hex : ∃ b ∈ m.m_node_list, fits (MemoryManager.align size m.m_alignment) b
  · obtain ⟨pre, it, post, hl, _, hit, hres⟩ :=
      first_fit_loop_spec (MemoryManager.align size m.m_alignment) m.m_node_list 0
        (by norm_num) hex
    rw [Nat.zero_add, carve_eq] at hres
    simp only [MemoryManager.first_fit, hres] at h
    have h2 := Except.ok.inj h
    simp only [Prod.mk.injEq] at h2
    refine ⟨pre, it, post, hl, hit, h2.1.symm, ?_⟩
    rw [← h2.2, ← h2.1]
  · have hn := first_fit_loop_none (MemoryManager.align size m.m_alignment) m.m_node_list 0
      (fun b hb hf => hex ⟨b, hb, hf⟩)
    simp [MemoryManager.first_fit, hn] at h

theorem best_fit_ok_shape {m m2 : MemoryManager} {size offset : Nat}
    (h : m.best_fit size = Except.ok (offset, m2)) :
    ∃ pre it post, m.m_node_list = pre ++ it :: post ∧
      fits (MemoryManager.align size m.m_alignment) it ∧
      offset = total pre % 2 ^ 64 ∧
      m2 = { m with
        m_node_list := pre ++ carve (MemoryManager.align size m.m_alignment) it ++ post
        m_max_allocated := max m.m_max_allocated
          ((offset + MemoryManager.align size m.m_alignment) % 2 ^ 64) } := by
  rcases best_fit_loop_spec (MemoryManager.align size m.m_alignment) m.m_node_list 0 0
      { min_delta := SIZE_MAX, best_fit := none, best_offset := 0 } (by norm_num)
    with ⟨_, hres⟩ | ⟨pre, it, post, hl, hit, _, _, _, hres⟩
  · simp [MemoryManager.best_fit, hres] at h
  · rw [best_fit_of_loop m size pre it post hl hit hres] at h
    have h2 := Except.ok.inj h
    simp only [Prod.mk.injEq] at h2
    refine ⟨pre, it, post, hl, hit, h2.1.symm, ?_⟩
    rw [← h2.2, ← h2.1]

/-- A successful `allocate` picked a FREE block `it` of size at least the rounded size,
at the `size_t` offset of the blocks before it, and carved the request from it. -/
theorem allocate_ok_shape {m m2 : MemoryManager} {size offset : Nat}
    (h : m.allocate size = Except.ok (offset, m2)) :
    ∃ pre it post, m.m_node_list = pre ++ it :: post ∧
      fits (MemoryManager.align size m.m_alignment) it ∧
      offset = total pre % 2 ^ 64 ∧
      m2 = { m with
        m_node_list := pre ++ carve (MemoryManager.align size m.m_alignment) it ++ post
        m_max_allocated := max m.m_max_allocated
          ((offset + MemoryManager.align size m.m_alignment) % 2 ^ 64) } := by
  unfold MemoryManager.allocate at h
  split at h
  · exact first_fit_ok_shape h
  · exact best_fit_ok_shape h

/-- A successful `free` found a first block `it` at the `size_t` offset and merged it
with its FREE neighbours. -/
theorem free_loop_some (offset : Nat) :
    ∀ (l rpre : List node) (so : Nat) (l2 : List node), so < 2 ^ 64 →
      free_loop offset rpre so l = some l2 →
      ∃ mid it post, l = mid ++ it :: post ∧
        (∀ k < mid.length, (so + total (mid.take k)) % 2 ^ 64 ≠ offset) ∧
        (so + total mid) % 2 ^ 64 = offset ∧
        l2 = free_here (mid.reverse ++ rpre) it post := by
  intro l
  induction l with
  | nil => intro rpre so l2 _ h; simp [free_loop] at h
  | cons c l ih =>
    intro rpre so l2 hso h
    by_cases heq : offset = so
    · rw [free_loop, if_pos heq] at h
      refine ⟨[], c, l, rfl, by simp, ?_, ?_⟩
      · rw [total_nil, Nat.add_zero, Nat.mod_eq_of_lt hso, heq]
      · simpa using (Option.some.inj h).symm
    · rw [free_loop, if_neg heq] at h
      obtain ⟨mid, it, post, hl, hfirst, hsum, hres⟩ :=
        ih (c :: rpre) ((so + c.m_size) % 2 ^ 64) l2 (Nat.mod_lt _ (by norm_num)) h
      have e : ∀ l : List node, ((so + c.m_size) % 2 ^ 64 + total l) % 2 ^ 64
          = (so + total (c :: l)) % 2 ^ 64 := by
        intro l
        rw [Nat.mod_add_mod, total_cons, Nat.add_assoc]
      refine ⟨c :: mid, it, post, by simp [hl], ?_, ?_, ?_⟩
      · intro k hk
        cases k with
        | zero =>
          rw [List.take_zero, total_nil, Nat.add_zero, Nat.mod_eq_of_lt hso]
          exact fun h => heq h.symm
        | succ k =>
          have := hfirst k (by simpa using hk)
          rw [e] at this
          simpa using this
      · rw [← e]; exact hsum
      · rw [hres]; simp

theorem free_ok_shape {m m2 : MemoryManager} {offset : Nat}
    (h : m.free offset = Except.ok m2) :
    ∃ pre it post, m.m_node_list = pre ++ it :: post ∧
      (∀ k < pre.length, total (pre.take k) % 2 ^ 64 ≠ offset) ∧
      total pre % 2 ^ 64 = offset ∧
      m2 = { m with m_node_list := free_here pre.reverse it post } := by
  unfold MemoryManager.free at h
  cases hf : free_loop offset [] 0 m.m_node_list with
  | none => simp [hf] at h
  | some l2 =>
    obtain ⟨pre, it, post, hl, hfirst, hsum, hres⟩ :=
      free_loop_some offset m.m_node_list [] 0 l2 (by norm_num) hf
    refine ⟨pre, it, post, hl, by simpa using hfirst, by simpa using hsum, ?_⟩
    simp only [hf] at h
    rw [← Except.ok.inj h, hres]
    simp

/-! ## The invariants of the block list -/

theorem total_carve (size : Nat) (it : node) (hit : fits size it) :
    total (carve size it) = it.m_size := by
  have := hit.2
  unfold carve
  split
  · simp; omega
  · simp

theorem total_kept_before (pre : List node) :
    total (kept_before pre) + absorbed_before pre = total pre := by
  rcases List.eq_nil_or_concat pre with rfl | ⟨before, p, rfl⟩
  · simp [kept_before, absorbed_before]
  · simp only [kept_before, absorbed_before, List.getLast?_append, List.getLast?_singleton]
    by_cases hp : p.m_state = block_state.FREE <;> simp [hp]

theorem total_kept_after (post : List node) :
    total (kept_after post) + absorbed_after post = total post := by
  cases post with
  | nil => simp [kept_after, absorbed_after]
  | cons n rest =>
    by_cases hn : n.m_state = block_state.FREE <;>
      simp [kept_after, absorbed_after, hn, Nat.add_comm]

/-- In a list that fits the pool, `free` keeps the sum of the sizes. -/
theorem total_free_here (pre : List node) (it : node) (post : List node)
    (h : total (pre ++ it :: post) ≤ SIZE_MAX) :
    total (free_here pre.reverse it post) = total (pre ++ it :: post) := by
  have h1 := total_kept_before pre
  have h2 := total_kept_after post
  rw [total_append, total_cons] at h
  unfold SIZE_MAX at h
  have hit : it.m_size < 2 ^ 64 := by omega
  have hm : (absorbed_before pre + it.m_size + absorbed_after post) % 2 ^ 64
      = absorbed_before pre + it.m_size + absorbed_after post := by
    apply Nat.mod_eq_of_lt; omega
  rw [free_here_eq pre it post hit, hm]
  simp only [total_append, total_cons]
  omega

theorem naf_append_cons (pre : List node) (x : node) (post : List node) :
    no_adjacent_free (pre ++ x :: post) ↔
      no_adjacent_free pre ∧ no_adjacent_free post ∧
      (∀ p ∈ pre.getLast?, ¬ (p.m_state = block_state.FREE ∧ x.m_state = block_state.FREE)) ∧
      (∀ n ∈ post.head?, ¬ (x.m_state = block_state.FREE ∧ n.m_state = block_state.FREE)) := by
  unfold no_adjacent_free
  rw [List.chain'_append, List.chain'_cons']
  simp only [List.head?_cons, Option.mem_def, Option.some.injEq, forall_eq']
  tauto

theorem naf_carve (size : Nat) (pre : List node) (it : node) (post : List node)
    (hit : it.m_state = block_state.FREE) (h : no_adjacent_free (pre ++ it :: post)) :
    no_adjacent_free (pre ++ carve size it ++ post) := by
  obtain ⟨h1, h2, _, h4⟩ := (naf_append_cons pre it post).1 h
  unfold carve
  split
  · rw [List.append_assoc, List.cons_append, List.cons_append, List.nil_append,
      naf_append_cons]
    refine ⟨h1, ?_, by simp, by simp⟩
    have := (naf_append_cons [] ⟨it.m_size - size, block_state.FREE⟩ post)
    simp only [List.nil_append] at this
    rw [this]
    refine ⟨by simp [no_adjacent_free], h2, by simp, ?_⟩
    intro n hn
    have := h4 n hn
    simpa [hit] using this
  · rw [List.append_assoc, List.cons_append, List.nil_append, naf_append_cons]
    exact ⟨h1, h2, by simp, by simp⟩

theorem naf_kept_before (pre : List node) (h : no_adjacent_free pre) :
    no_adjacent_free (kept_before pre) ∧
      ∀ p ∈ (kept_before pre).getLast?, p.m_state ≠ block_state.FREE := by
  rcases List.eq_nil_or_concat pre with rfl | ⟨before, p, hpre⟩
  · simp [kept_before, no_adjacent_free]
  · rw [List.concat_eq_append] at hpre
    subst hpre
    obtain ⟨h1, _, h3, _⟩ := (naf_append_cons before p []).1 h
    by_cases hp : p.m_state = block_state.FREE
    · have e : kept_before (before ++ [p]) = before := by
        simp [kept_before, hp]
      rw [e]
      refine ⟨h1, ?_⟩
      intro q hq hqf
      exact h3 q hq ⟨hqf, hp⟩
    · have e : kept_before (before ++ [p]) = before ++ [p] := by
        simp [kept_before, hp]
      rw [e]
      refine ⟨h, ?_⟩
      simp [hp]

theorem naf_kept_after (post : List node) (h : no_adjacent_free post) :
    no_adjacent_free (kept_after post) ∧
      ∀ n ∈ (kept_after post).head?, n.m_state ≠ block_state.FREE := by
  cases post with
  | nil => simp [kept_after, no_adjacent_free]
  | cons n rest =>
    have h0 := (naf_append_cons [] n rest).1 (by simpa using h)
    obtain ⟨_, h2, _, h4⟩ := h0
    by_cases hn : n.m_state = block_state.FREE
    · simp only [kept_after, hn, if_true]
      refine ⟨h2, ?_⟩
      intro q hq hqf
      exact h4 q hq ⟨hn, hqf⟩
    · simp only [kept_after, hn, if_false]
      exact ⟨h, by simp [hn]⟩

theorem naf_free_here (pre : List node) (it : node) (post : List node)
    (hit : it.m_size < 2 ^ 64) (h : no_adjacent_free (pre ++ it :: post)) :
    no_adjacent_free (free_here pre.reverse it post) := by
  obtain ⟨h1, h2, _, _⟩ := (naf_append_cons pre it post).1 h
  obtain ⟨hb1, hb2⟩ := naf_kept_before pre h1
  obtain ⟨ha1, ha2⟩ := naf_kept_after post h2
  rw [free_here_eq pre it post hit, naf_append_cons]
  refine ⟨hb1, ha1, ?_, ?_⟩
  · intro p hp hpf
    exact hb2 p hp hpf.1
  · intro n hn hnf
    exact ha2 n hn hnf.2

/-- Every reachable state satisfies both invariants of the block list: the sizes sum
to the pool extent and no two consecutive blocks are FREE. -/
theorem reachable_invariants {ok : Nat → Prop} {a : Nat} {scheme : allocation_scheme}
    {log : List (Nat × Nat)} {m : MemoryManager} (h : ReachableBy ok a scheme log m) :
    total m.m_node_list = SIZE_MAX ∧ no_adjacent_free m.m_node_list := by
  induction h with
  | fresh => simp [MemoryManager.new, no_adjacent_free]
  | allocate _ _ _ hal ih =>
    obtain ⟨pre, it, post, hl, hit, _, rfl⟩ := allocate_ok_shape hal
    rw [hl] at ih
    constructor
    · rw [← ih.1]
      simp only [total_append, total_cons, total_carve _ _ hit, Nat.add_assoc]
    · exact naf_carve _ pre it post hit.1 ih.2
  | free _ _ hfr ih =>
    obtain ⟨pre, it, post, hl, _, _, rfl⟩ := free_ok_shape hfr
    rw [hl] at ih
    have hle : total (pre ++ it :: post) ≤ SIZE_MAX := Nat.le_of_eq ih.1
    constructor
    · simp only
      rw [total_free_here pre it post hle, ih.1]
    · have hit : it.m_size < 2 ^ 64 := by
        have := ih.1
        rw [total_append, total_cons] at this
        unfold SIZE_MAX at this
        omega
      exact naf_free_here pre it post hit ih.2

/-- An example of a reachable state: a fresh manager of alignment 1 after
`allocate(8)`. -/
theorem reachable_example_one :
    Reachable 1 allocation_scheme.BEST_FIT [(0, 8)]
      (MemoryManager.mk 1 allocation_scheme.BEST_FIT
        [⟨8, block_state.ALLOCATED⟩, ⟨18446744073709551607, block_state.FREE⟩] 8) :=
  @ReachableBy.allocate (fun _ => True) 1 allocation_scheme.BEST_FIT [] _ _ 8 0
    ReachableBy.fresh (by norm_num) trivial rfl

/-- An example of a reachable state: a fresh FIRST_FIT manager of alignment 8 after
`allocate(8)` and `allocate(5)`. -/
theorem reachable_example_two :
    Reachable 8 allocation_scheme.FIRST_FIT [(8, 8), (0, 8)]
      (MemoryManager.mk 8 allocation_scheme.FIRST_FIT
        [⟨8, block_state.ALLOCATED⟩, ⟨8, block_state.ALLOCATED⟩,
          ⟨18446744073709551599, block_state.FREE⟩] 16) :=
  @ReachableBy.allocate (fun _ => True) 8 allocation_scheme.FIRST_FIT [(0, 8)]
    (MemoryManager.mk 8 allocation_scheme.FIRST_FIT
      [⟨8, block_state.ALLOCATED⟩, ⟨18446744073709551607, block_state.FREE⟩] 8) _ 5 8
    (@ReachableBy.allocate (fun _ => True) 8 allocation_scheme.FIRST_FIT [] _ _ 8 0
      ReachableBy.fresh (by norm_num) trivial rfl)
    (by norm_num) trivial rfl

/-- An example of a reachable state: the state of `reachable_example_two` after
`free(0)`. -/
theorem reachable_example_three :
    Reachable 8 allocation_scheme.FIRST_FIT [(8, 8), (0, 8)]
      (MemoryManager.mk 8 allocation_scheme.FIRST_FIT
        [⟨8, block_state.FREE⟩, ⟨8, block_state.ALLOCATED⟩,
          ⟨18446744073709551599, block_state.FREE⟩] 16) :=
  @ReachableBy.free (fun _ => True) 8 allocation_scheme.FIRST_FIT [(8, 8), (0, 8)] _ _ 0
    reachable_example_two (by norm_num) rfl

/-- C4: coverage invariant. In every state reachable from a freshly constructed
MemoryManager (alignment > 0, either strategy) by any sequence of `allocate` and `free`
calls, the sizes of the blocks sum exactly to `numeric_limits<size_t>::max()`; and each
successful `allocate` and each successful `free` from such a state leaves the sum of
the block sizes unchanged. -/
theorem coverage_invariant (a : Nat) (scheme : allocation_scheme) (log : List (Nat × Nat))
    (m : MemoryManager) (_ha : 0 < a) (h : Reachable a scheme log m) :
    total m.m_node_list = SIZE_MAX ∧
    (∀ size offset m2, m.allocate size = Except.ok (offset, m2) →
      total m2.m_node_list = total m.m_node_list) ∧
    (∀ offset m2, m.free offset = Except.ok m2 →
      total m2.m_node_list = total m.m_node_list) := by
  have hinv := (reachable_invariants h).1
  refine ⟨hinv, ?_, ?_⟩
  · intro size offset m2 hal
    obtain ⟨pre, it, post, hl, hit, _, rfl⟩ := allocate_ok_shape hal
    rw [hl]
    simp only [total_append, total_cons, total_carve _ _ hit, Nat.add_assoc]
  · intro offset m2 hfr
    obtain ⟨pre, it, post, hl, _, _, rfl⟩ := free_ok_shape hfr
    rw [hl] at hinv ⊢
    exact total_free_here pre it post (Nat.le_of_eq hinv)

/-- The witness of C4: the state after `allocate(8)` on a fresh manager of alignment 1. -/
theorem coverage_invariant_witness :
    total [⟨8, block_state.ALLOCATED⟩, ⟨18446744073709551607, block_state.FREE⟩] = SIZE_MAX :=
  (coverage_invariant 1 allocation_scheme.BEST_FIT [(0, 8)]
    (MemoryManager.mk 1 allocation_scheme.BEST_FIT
      [⟨8, block_state.ALLOCATED⟩, ⟨18446744073709551607, block_state.FREE⟩] 8)
    (by decide) reachable_example_one).1

/-- C5: no-adjacent-FREE invariant. In every state reachable from a freshly constructed
MemoryManager (alignment > 0) by any sequence of `allocate` and `free` calls, under
either strategy, no two consecutive blocks of the sequence are both FREE. -/
theorem no_adjacent_free_invariant (a : Nat) (scheme : allocation_scheme)
    (log : List (Nat × Nat)) (m : MemoryManager) (_ha : 0 < a)
    (h : Reachable a scheme log m) :
    no_adjacent_free m.m_node_list :=
  (reachable_invariants h).2

/-- The witness of C5: the state after `allocate(8)`, `allocate(8)`, `free(0)` on a
fresh FIRST_FIT manager of alignment 8. -/
theorem no_adjacent_free_invariant_witness :
    no_adjacent_free [⟨8, block_state.FREE⟩, ⟨8, block_state.ALLOCATED⟩,
      ⟨18446744073709551599, block_state.FREE⟩] :=
  no_adjacent_free_invariant 8 allocation_scheme.FIRST_FIT [(8, 8), (0, 8)]
    (MemoryManager.mk 8 allocation_scheme.FIRST_FIT
      [⟨8, block_state.FREE⟩, ⟨8, block_state.ALLOCATED⟩,
        ⟨18446744073709551599, block_state.FREE⟩] 16)
    (by decide) reachable_example_three

/-- In a state whose blocks sum to the pool extent, the end `offset + rounded size` of
a successful allocation does not wrap. -/
theorem allocate_end_no_wrap {m m2 : MemoryManager} {size offset : Nat}
    (hsum : total m.m_node_list = SIZE_MAX)
    (h : m.allocate size = Except.ok (offset, m2)) :
    offset + MemoryManager.align size m.m_alignment ≤ SIZE_MAX ∧
    m2.m_max_allocated
      = max m.m_max_allocated (offset + MemoryManager.align size m.m_alignment) := by
  obtain ⟨pre, it, post, hl, hit, ho, rfl⟩ := allocate_ok_shape h
  rw [hl, total_append, total_cons] at hsum
  have h2 := hit.2
  have hpre : total pre % 2 ^ 64 = total pre := by
    apply Nat.mod_eq_of_lt; unfold SIZE_MAX at hsum; omega
  rw [hpre] at ho
  have hle : offset + MemoryManager.align size m.m_alignment ≤ SIZE_MAX := by omega
  refine ⟨hle, ?_⟩
  have hmod : (offset + MemoryManager.align size m.m_alignment) % 2 ^ 64
      = offset + MemoryManager.align size m.m_alignment := by
    apply Nat.mod_eq_of_lt; unfold SIZE_MAX at hle; omega
  simp only [hmod]

/-- C7: high-water mark. Along any sequence of `allocate` and `free` calls starting
from a freshly constructed MemoryManager, `m_max_allocated` equals the maximum of
(returned offset + rounded size) over all successful `allocate` calls issued so far,
freed or not (0 when none has been issued); a further `allocate` never decreases it and
sets it to the maximum of its old value and (returned offset + rounded size); a further
`free` leaves it unchanged. -/
theorem high_water_mark (a : Nat) (scheme : allocation_scheme) (log : List (Nat × Nat))
    (m : MemoryManager) (h : Reachable a scheme log m) :
    m.m_max_allocated = (log.map (fun p => p.1 + p.2)).foldr max 0 ∧
    (∀ size offset m2, m.allocate size = Except.ok (offset, m2) →
      m.m_max_allocated ≤ m2.m_max_allocated ∧
      m2.m_max_allocated
        = max m.m_max_allocated (offset + MemoryManager.align size m.m_alignment)) ∧
    (∀ offset m2, m.free offset = Except.ok m2 →
      m2.m_max_allocated = m.m_max_allocated) := by
  refine ⟨?_, ?_, ?_⟩
  · unfold Reachable at h
    induction h with
    | fresh => simp [MemoryManager.new]
    | allocate hr _ _ hal ih =>
      have := (allocate_end_no_wrap (reachable_invariants hr).1 hal).2
      rw [this, ih]
      simp [max_comm]
    | free _ _ hfr ih =>
      obtain ⟨pre, it, post, _, _, _, rfl⟩ := free_ok_shape hfr
      exact ih
  · intro size offset m2 hal
    have := (allocate_end_no_wrap (reachable_invariants h).1 hal).2
    rw [this]
    exact ⟨le_max_left _ _, rfl⟩
  · intro offset m2 hfr
    obtain ⟨pre, it, post, _, _, _, rfl⟩ := free_ok_shape hfr
    rfl

/-- The witness of C7: after `allocate(8)`, `allocate(5)`, `free(0)` on a fresh
FIRST_FIT manager of alignment 8 the high-water mark is 16. -/
theorem high_water_mark_witness :
    (16 : Nat) = ([(8, 8), (0, 8)].map (fun p : Nat × Nat => p.1 + p.2)).foldr max 0 :=
  (high_water_mark 8 allocation_scheme.FIRST_FIT [(8, 8), (0, 8)]
    (MemoryManager.mk 8 allocation_scheme.FIRST_FIT
      [⟨8, block_state.FREE⟩, ⟨8, block_state.ALLOCATED⟩,
        ⟨18446744073709551599, block_state.FREE⟩] 16)
    reachable_example_three).1

/-! ## Allocating and freeing at once -/

theorem reachable_alignment {ok : Nat → Prop} {a : Nat} {scheme : allocation_scheme}
    {log : List (Nat × Nat)} {m : MemoryManager} (h : ReachableBy ok a scheme log m) :
    m.m_alignment = a := by
  induction h with
  | fresh => rfl
  | allocate _ _ _ hal ih =>
    obtain ⟨pre, it, post, _, _, _, rfl⟩ := allocate_ok_shape hal
    exact ih
  | free _ _ hfr ih =>
    obtain ⟨pre, it, post, _, _, _, rfl⟩ := free_ok_shape hfr
    exact ih

theorem mem_kept_before {pre : List node} {b : node} (h : b ∈ kept_before pre) : b ∈ pre := by
  unfold kept_before at h
  split at h
  · split at h
    · exact List.mem_of_mem_dropLast h
    · exact h
  · exact h

theorem mem_kept_after {post : List node} {b : node} (h : b ∈ kept_after post) : b ∈ post := by
  unfold kept_after at h
  split at h
  · split at h
    · exact List.mem_cons_of_mem _ h
    · exact h
  · exact h

/-- When no rounded size wraps, every block of a reachable state has a positive size. -/
theorem reachable_no_wrap_pos {a : Nat} {scheme : allocation_scheme}
    {log : List (Nat × Nat)} {m : MemoryManager} (ha : 0 < a)
    (h : ReachableNoWrap a scheme log m) : ∀ b ∈ m.m_node_list, 0 < b.m_size := by
  unfold ReachableNoWrap at h
  induction h with
  | fresh =>
    intro b hb
    simp [MemoryManager.new] at hb
    subst hb
    simp [SIZE_MAX]
  | allocate hr _ hok hal ih =>
    have hal2 := reachable_alignment hr
    obtain ⟨pre, it, post, hl, hit, _, rfl⟩ := allocate_ok_shape hal
    rw [hal2] at hit ⊢
    have hrpos := align_pos ha hok
    rw [hl] at ih
    intro b hb
    simp only [List.mem_append] at hb
    rcases hb with (hb | hb) | hb
    · exact ih b (by simp [hb])
    · have h2 := hit.2
      have hitpos := ih it (by simp)
      unfold carve at hb
      split at hb
      · simp at hb
        rcases hb with rfl | rfl
        · exact hrpos
        · simp; omega
      · simp at hb
        subst hb
        exact hitpos
    · exact ih b (by simp [hb])
  | free hr _ hfr ih =>
    have hsum := (reachable_invariants hr).1
    obtain ⟨pre, it, post, hl, _, _, rfl⟩ := free_ok_shape hfr
    rw [hl] at ih hsum
    have hitpos := ih it (by simp)
    have h1 := absorbed_before_le pre
    have h2 := absorbed_after_le post
    rw [total_append, total_cons] at hsum
    unfold SIZE_MAX at hsum
    have hit : it.m_size < 2 ^ 64 := by omega
    have hm : (absorbed_before pre + it.m_size + absorbed_after post) % 2 ^ 64
        = absorbed_before pre + it.m_size + absorbed_after post := by
      apply Nat.mod_eq_of_lt; omega
    intro b hb
    simp only [free_here_eq pre it post hit, hm, List.mem_append, List.mem_cons] at hb
    rcases hb with hb | rfl | hb
    · exact ih b (by simp [mem_kept_before hb])
    · simp; omega
    · exact ih b (by simp [mem_kept_after hb])

theorem total_take_lt (pre : List node) (hpos : ∀ b ∈ pre, 0 < b.m_size) :
    ∀ k < pre.length, total (pre.take k) < total pre := by
  induction pre with
  | nil => intro k hk; simp at hk
  | cons c pre ih =>
    intro k hk
    have hc := hpos c (by simp)
    cases k with
    | zero => simp; omega
    | succ k =>
      have := ih (fun b hb => hpos b (by simp [hb])) k (by simpa using hk)
      simp; omega

theorem kept_before_self (pre : List node)
    (h : ∀ p ∈ pre.getLast?, p.m_state ≠ block_state.FREE) :
    kept_before pre = pre ∧ absorbed_before pre = 0 := by
  unfold kept_before absorbed_before
  cases hlast : pre.getLast? with
  | none => simp
  | some p =>
    have := h p (by simp [hlast])
    simp [this]

theorem kept_after_self (post : List node)
    (h : ∀ n ∈ post.head?, n.m_state ≠ block_state.FREE) :
    kept_after post = post ∧ absorbed_after post = 0 := by
  cases post with
  | nil => simp [kept_after, absorbed_after]
  | cons n rest =>
    have := h n (by simp)
    simp [kept_after, absorbed_after, this]

/-- In a state that satisfies the invariants and has no zero-size block, `free` of the
offset that `allocate` just returned restores the block list, and a second `free` of
the same offset succeeds and changes nothing. -/
theorem allocate_then_free_twice {m m1 : MemoryManager} {size offset : Nat}
    (hsum : total m.m_node_list = SIZE_MAX) (hnaf : no_adjacent_free m.m_node_list)
    (hpos : ∀ b ∈ m.m_node_list, 0 < b.m_size)
    (hal : m.allocate size = Except.ok (offset, m1)) :
    m1.free offset = Except.ok { m1 with m_node_list := m.m_node_list } ∧
    MemoryManager.free { m1 with m_node_list := m.m_node_list } offset
      = Except.ok { m1 with m_node_list := m.m_node_list } := by
  obtain ⟨pre, it, post, hl, hit, ho, rfl⟩ := allocate_ok_shape hal
  rw [hl] at hsum hnaf hpos
  obtain ⟨sz, st⟩ := it
  obtain ⟨hst, hsz⟩ := hit
  simp only at hst hsz
  subst hst
  rw [total_append, total_cons] at hsum
  unfold SIZE_MAX at hsum
  simp only at hsum
  have hpre : total pre % 2 ^ 64 = total pre := by apply Nat.mod_eq_of_lt; omega
  have hfirst : ∀ k < pre.length, total (pre.take k) % 2 ^ 64 ≠ offset := by
    intro k hk
    have h1 := total_take_lt pre (fun b hb => hpos b (by simp [hb])) k hk
    rw [ho, hpre, Nat.mod_eq_of_lt (by omega)]
    omega
  obtain ⟨_, _, hlast, hhead⟩ := (naf_append_cons pre ⟨sz, block_state.FREE⟩ post).1 hnaf
  obtain ⟨kb1, kb2⟩ := kept_before_self pre (fun p hp hpf => hlast p hp ⟨hpf, rfl⟩)
  obtain ⟨ka1, ka2⟩ := kept_after_self post (fun n hn hnf => hhead n hn ⟨rfl, hnf⟩)
  have hszm : sz % 2 ^ 64 = sz := by apply Nat.mod_eq_of_lt; omega
  constructor
  · by_cases hlt : MemoryManager.align size m.m_alignment < sz
    · have e := free_first_block
        { m with
          m_node_list := pre ++ carve (MemoryManager.align size m.m_alignment)
            ⟨sz, block_state.FREE⟩ ++ post
          m_max_allocated := max m.m_max_allocated
            ((offset + MemoryManager.align size m.m_alignment) % 2 ^ 64) }
        pre ⟨MemoryManager.align size m.m_alignment, block_state.ALLOCATED⟩
        (⟨sz - MemoryManager.align size m.m_alignment, block_state.FREE⟩ :: post) offset
        (by simp [carve, hlt]) (by simp only; omega) ho.symm hfirst
      rw [e, kb1, kb2, hl]
      have hm : (MemoryManager.align size m.m_alignment
          + (sz - MemoryManager.align size m.m_alignment)) % 2 ^ 64 = sz := by
        rw [Nat.add_sub_cancel' hsz, hszm]
      simp [-Nat.reducePow, kept_after, absorbed_after, hm]
    · have hszeq : MemoryManager.align size m.m_alignment = sz := by omega
      have e := free_first_block
        { m with
          m_node_list := pre ++ carve (MemoryManager.align size m.m_alignment)
            ⟨sz, block_state.FREE⟩ ++ post
          m_max_allocated := max m.m_max_allocated
            ((offset + MemoryManager.align size m.m_alignment) % 2 ^ 64) }
        pre ⟨sz, block_state.ALLOCATED⟩ post offset
        (by simp [carve, hlt]) (by simp only; omega) ho.symm hfirst
      rw [e, kb1, kb2, ka1, ka2, hl]
      simp [-Nat.reducePow, hszm]
  · have e := free_first_block
      { m with
        m_node_list := m.m_node_list
        m_max_allocated := max m.m_max_allocated
          ((offset + MemoryManager.align size m.m_alignment) % 2 ^ 64) }
      pre ⟨sz, block_state.FREE⟩ post offset hl (by simp only; omega) ho.symm hfirst
    rw [kb1, kb2, ka1, ka2] at e
    simp only [Nat.zero_add, Nat.add_zero, hszm] at e
    rw [e, hl]

/-- C6 (the code at the failing input): with alignment 2, `allocate(1)` returns 0 and
`allocate(2^64 - 1)`, whose rounded size wraps to 0, puts a zero-size ALLOCATED block
at offset 2. From that state `allocate(2)` returns offset 2 as well, and the `free(2)`
that follows at once frees the zero-size block instead of the block just allocated:
the block list is not the one of before the `allocate`. -/
theorem round_trip_broken_after_wrapped_request :
    (MemoryManager.new 2).allocate 1
      = Except.ok (0, MemoryManager.mk 2 allocation_scheme.BEST_FIT
          [⟨2, block_state.ALLOCATED⟩, ⟨18446744073709551613, block_state.FREE⟩] 2) ∧
    (MemoryManager.mk 2 allocation_scheme.BEST_FIT
        [⟨2, block_state.ALLOCATED⟩, ⟨18446744073709551613, block_state.FREE⟩] 2).allocate
          18446744073709551615
      = Except.ok (2, MemoryManager.mk 2 allocation_scheme.BEST_FIT
          [⟨2, block_state.ALLOCATED⟩, ⟨0, block_state.ALLOCATED⟩,
            ⟨18446744073709551613, block_state.FREE⟩] 2) ∧
    (MemoryManager.mk 2 allocation_scheme.BEST_FIT
        [⟨2, block_state.ALLOCATED⟩, ⟨0, block_state.ALLOCATED⟩,
          ⟨18446744073709551613, block_state.FREE⟩] 2).allocate 2
      = Except.ok (2, MemoryManager.mk 2 allocation_scheme.BEST_FIT
          [⟨2, block_state.ALLOCATED⟩, ⟨0, block_state.ALLOCATED⟩, ⟨2, block_state.ALLOCATED⟩,
            ⟨18446744073709551611, block_state.FREE⟩] 4) ∧
    (MemoryManager.mk 2 allocation_scheme.BEST_FIT
        [⟨2, block_state.ALLOCATED⟩, ⟨0, block_state.ALLOCATED⟩, ⟨2, block_state.ALLOCATED⟩,
          ⟨18446744073709551611, block_state.FREE⟩] 4).free 2
      = Except.ok (MemoryManager.mk 2 allocation_scheme.BEST_FIT
          [⟨2, block_state.ALLOCATED⟩, ⟨0, block_state.FREE⟩, ⟨2, block_state.ALLOCATED⟩,
            ⟨18446744073709551611, block_state.FREE⟩] 4) ∧
    ([⟨2, block_state.ALLOCATED⟩, ⟨0, block_state.FREE⟩, ⟨2, block_state.ALLOCATED⟩,
        ⟨18446744073709551611, block_state.FREE⟩] : List node)
      ≠ [⟨2, block_state.ALLOCATED⟩, ⟨0, block_state.ALLOCATED⟩,
          ⟨18446744073709551613, block_state.FREE⟩] :=
  ⟨rfl, rfl, rfl, rfl, by decide⟩

/-- The round trip of C6 where no rounded size has wrapped before: in every state
reachable by non-wrapping requests, for either strategy and every size, a successful
`allocate` followed at once by `free` of the returned offset restores the block list. -/
theorem allocate_free_round_trip_without_wrap (a : Nat) (scheme : allocation_scheme)
    (log : List (Nat × Nat)) (m m1 : MemoryManager) (size offset : Nat) (ha : 0 < a)
    (h : ReachableNoWrap a scheme log m)
    (hal : m.allocate size = Except.ok (offset, m1)) :
    ∃ m2, m1.free offset = Except.ok m2 ∧ m2.m_node_list = m.m_node_list := by
  obtain ⟨hsum, hnaf⟩ := reachable_invariants h
  exact ⟨_, (allocate_then_free_twice hsum hnaf (reachable_no_wrap_pos ha h) hal).1, rfl⟩

/-- C9 (amended): double free. For every state reachable by calls whose rounded sizes
do not wrap (alignment > 0, either strategy) and every offset `o` returned by a
successful `allocate` on it, calling `free(o)` twice in succession succeeds both times:
the first call restores the block list of before the `allocate`, the second finds the
now FREE block at `o` again and leaves the state as it is. -/
theorem double_free_not_rejected (a : Nat) (scheme : allocation_scheme)
    (log : List (Nat × Nat)) (m m1 : MemoryManager) (size offset : Nat) (ha : 0 < a)
    (h : ReachableNoWrap a scheme log m)
    (hal : m.allocate size = Except.ok (offset, m1)) :
    ∃ m2, m1.free offset = Except.ok m2 ∧ m2.m_node_list = m.m_node_list ∧
      m2.free offset = Except.ok m2 := by
  obtain ⟨hsum, hnaf⟩ := reachable_invariants h
  obtain ⟨h1, h2⟩ := allocate_then_free_twice hsum hnaf (reachable_no_wrap_pos ha h) hal
  exact ⟨_, h1, rfl, h2⟩

/-- The witness of C9 (amended): a fresh manager of alignment 1 and `allocate(1)`. -/
theorem double_free_not_rejected_witness :
    ∃ m2, (MemoryManager.mk 1 allocation_scheme.BEST_FIT
        [⟨1, block_state.ALLOCATED⟩, ⟨18446744073709551614, block_state.FREE⟩] 1).free 0
          = Except.ok m2 ∧
      m2.m_node_list = (MemoryManager.mk 1 allocation_scheme.BEST_FIT
        [⟨18446744073709551615, block_state.FREE⟩] 0).m_node_list ∧
      m2.free 0 = Except.ok m2 :=
  double_free_not_rejected 1 allocation_scheme.BEST_FIT []
    (MemoryManager.mk 1 allocation_scheme.BEST_FIT [⟨18446744073709551615, block_state.FREE⟩] 0)
    (MemoryManager.mk 1 allocation_scheme.BEST_FIT
      [⟨1, block_state.ALLOCATED⟩, ⟨18446744073709551614, block_state.FREE⟩] 1)
    1 0 (by decide) ReachableBy.fresh rfl

/-- The counterexample to C9 as stated: on a fresh manager of alignment 1,
`allocate(1)` returns offset 0, `free(0)` succeeds, and the second `free(0)` succeeds
too instead of failing with "bad free". -/
theorem double_free_counterexample :
    (MemoryManager.new 1).allocate 1
      = Except.ok (0, MemoryManager.mk 1 allocation_scheme.BEST_FIT
          [⟨1, block_state.ALLOCATED⟩, ⟨18446744073709551614, block_state.FREE⟩] 1) ∧
    (MemoryManager.mk 1 allocation_scheme.BEST_FIT
        [⟨1, block_state.ALLOCATED⟩, ⟨18446744073709551614, block_state.FREE⟩] 1).free 0
      = Except.ok (MemoryManager.mk 1 allocation_scheme.BEST_FIT
          [⟨18446744073709551615, block_state.FREE⟩] 1) ∧
    (MemoryManager.mk 1 allocation_scheme.BEST_FIT
        [⟨18446744073709551615, block_state.FREE⟩] 1).free 0
      = Except.ok (MemoryManager.mk 1 allocation_scheme.BEST_FIT
          [⟨18446744073709551615, block_state.FREE⟩] 1) ∧
    (MemoryManager.mk 1 allocation_scheme.BEST_FIT
        [⟨18446744073709551615, block_state.FREE⟩] 1).free 0
      ≠ Except.error Exn.bad_free := by
  refine ⟨rfl, rfl, rfl, ?_⟩
  intro h
  have h2 : (MemoryManager.mk 1 allocation_scheme.BEST_FIT
        [⟨18446744073709551615, block_state.FREE⟩] 1).free 0
      = Except.ok (MemoryManager.mk 1 allocation_scheme.BEST_FIT
          [⟨18446744073709551615, block_state.FREE⟩] 1) := rfl
  rw [h2] at h
  cases h

/-! ## When `free` throws -/

/-- The loop of `free` finds nothing exactly when no block begins at the `size_t`
offset. -/
theorem free_loop_none_iff (offset : Nat) :
    ∀ (l rpre : List node) (so : Nat), so < 2 ^ 64 →
      (free_loop offset rpre so l = none ↔
        ∀ pre B post, l = pre ++ B :: post → (so + total pre) % 2 ^ 64 ≠ offset) := by
  intro l
  induction l with
  | nil =>
    intro rpre so _
    simp [free_loop]
  | cons c l ih =>
    intro rpre so hso
    have e : ∀ l : List node, ((so + c.m_size) % 2 ^ 64 + total l) % 2 ^ 64
        = (so + total (c :: l)) % 2 ^ 64 := by
      intro l
      rw [Nat.mod_add_mod, total_cons, Nat.add_assoc]
    by_cases heq : offset = so
    · rw [free_loop, if_pos heq]
      constructor
      · intro h; cases h
      · intro h
        exfalso
        have := h [] c l rfl
        rw [total_nil, Nat.add_zero, Nat.mod_eq_of_lt hso] at this
        exact this heq.symm
    · rw [free_loop, if_neg heq, ih (c :: rpre) _ (Nat.mod_lt _ (by norm_num))]
      constructor
      · intro h pre B post hl
        cases pre with
        | nil =>
          rw [total_nil, Nat.add_zero, Nat.mod_eq_of_lt hso]
          exact fun h => heq h.symm
        | cons d pre =>
          simp only [List.cons_append, List.cons.injEq] at hl
          obtain ⟨rfl, hl⟩ := hl
          have := h pre B post hl
          rwa [e] at this
      · intro h pre B post hl
        have := h (c :: pre) B post (by simp [hl])
        rwa [e]

theorem total_le_of_append (pre post : List node) : total pre ≤ total (pre ++ post) := by
  rw [total_append]; omega

/-- C10: `free(offset)` fails with "bad free" if and only if no block of the sequence
begins exactly at `offset`, a block's beginning being the sum of the sizes of the blocks
before it (the `size_t` sum, which is the plain sum whenever the blocks sum to at most
`numeric_limits<size_t>::max()`, as in every reachable state); in particular an offset
strictly inside a block is rejected. -/
theorem free_fails_iff_no_block_at_offset (m : MemoryManager) (offset : Nat) :
    (m.free offset = Except.error Exn.bad_free ↔
      ¬ ∃ pre B post, m.m_node_list = pre ++ B :: post ∧ total pre % 2 ^ 64 = offset) ∧
    (total m.m_node_list ≤ SIZE_MAX →
      (m.free offset = Except.error Exn.bad_free ↔
        ¬ ∃ pre B post, m.m_node_list = pre ++ B :: post ∧ total pre = offset)) ∧
    (total m.m_node_list ≤ SIZE_MAX →
      ∀ pre B post, m.m_node_list = pre ++ B :: post →
        total pre < offset → offset < total pre + B.m_size →
        m.free offset = Except.error Exn.bad_free) := by
  have hiff : m.free offset = Except.error Exn.bad_free ↔
      ¬ ∃ pre B post, m.m_node_list = pre ++ B :: post ∧ total pre % 2 ^ 64 = offset := by
    have h := free_loop_none_iff offset m.m_node_list [] 0 (by norm_num)
    simp only [Nat.zero_add] at h
    unfold MemoryManager.free
    cases hf : free_loop offset [] 0 m.m_node_list with
    | none =>
      simp only [true_iff]
      rintro ⟨pre, B, post, hl, ho⟩
      exact (h.1 hf) pre B post hl ho
    | some l2 =>
      constructor
      · intro hbad; cases hbad
      · intro hne
        have : free_loop offset [] 0 m.m_node_list = none :=
          h.2 (fun pre B post hl ho => hne ⟨pre, B, post, hl, ho⟩)
        rw [hf] at this
        cases this
  have hplain : total m.m_node_list ≤ SIZE_MAX →
      ((∃ pre B post, m.m_node_list = pre ++ B :: post ∧ total pre % 2 ^ 64 = offset) ↔
        ∃ pre B post, m.m_node_list = pre ++ B :: post ∧ total pre = offset) := by
    intro hfit
    constructor
    · rintro ⟨pre, B, post, hl, ho⟩
      refine ⟨pre, B, post, hl, ?_⟩
      rw [hl] at hfit
      rwa [total_mod_of_le hfit] at ho
    · rintro ⟨pre, B, post, hl, ho⟩
      refine ⟨pre, B, post, hl, ?_⟩
      rw [hl] at hfit
      rwa [total_mod_of_le hfit]
  refine ⟨hiff, ?_, ?_⟩
  · intro hfit
    rw [hiff, hplain hfit]
  · intro hfit pre B post hl hlow hhigh
    rw [hiff, hplain hfit]
    rintro ⟨pre2, B2, post2, hl2, ho⟩
    rw [hl] at hl2
    rcases List.append_eq_append_iff.1 hl2 with ⟨a2, h1, h2⟩ | ⟨c2, h1, h2⟩
    · cases a2 with
      | nil =>
        simp only [List.append_nil] at h1
        rw [h1] at ho
        omega
      | cons d a2 =>
        simp only [List.cons_append, List.cons.injEq] at h2
        obtain ⟨rfl, _⟩ := h2
        rw [h1, total_append, total_cons] at ho
        omega
    · have := total_le_of_append pre2 c2
      rw [← h1] at this
      omega

/-! ## Freeing three adjacent blocks -/

set_option linter.unusedVariables false

theorem frees_coalesce_of_steps (m : MemoryManager) (x y z : Nat) (l1 l2 : List node)
    (h1 : free_loop x [] 0 m.m_node_list = some l1)
    (h2 : free_loop y [] 0 l1 = some l2)
    (h3 : free_loop z [] 0 l2 = some [⟨SIZE_MAX, block_state.FREE⟩]) :
    frees_coalesce m x y z := by
  refine ⟨{ m with m_node_list := l1 }, { m with m_node_list := l2 },
    { m with m_node_list := [⟨SIZE_MAX, block_state.FREE⟩] }, ?_, ?_, ?_, rfl⟩
  · simp only [MemoryManager.free, h1]
  · simp only [MemoryManager.free, h2]
  · simp only [MemoryManager.free, h3]

theorem free_step_tail_A (r t : Nat) (hr : 0 < r) (h3 : r + r + r + t = 2 ^ 64 - 1) :
    free_loop (0) [] 0 [⟨r, block_state.ALLOCATED⟩, ⟨r, block_state.ALLOCATED⟩, ⟨r, block_state.ALLOCATED⟩, ⟨t, block_state.FREE⟩]
      = some [⟨r, block_state.FREE⟩, ⟨r, block_state.ALLOCATED⟩, ⟨r, block_state.ALLOCATED⟩, ⟨t, block_state.FREE⟩] := by
  simp only [free_loop, free_here]
  split_ifs <;> first | omega | contradiction | (simp [SIZE_MAX]; try omega)

theorem free_step_tail_B (r t : Nat) (hr : 0 < r) (h3 : r + r + r + t = 2 ^ 64 - 1) :
    free_loop (r) [] 0 [⟨r, block_state.ALLOCATED⟩, ⟨r, block_state.ALLOCATED⟩, ⟨r, block_state.ALLOCATED⟩, ⟨t, block_state.FREE⟩]
      = some [⟨r, block_state.ALLOCATED⟩, ⟨r, block_state.FREE⟩, ⟨r, block_state.ALLOCATED⟩, ⟨t, block_state.FREE⟩] := by
  simp only [free_loop, free_here]
  split_ifs <;> first | omega | contradiction | (simp [SIZE_MAX]; try omega)

theorem free_step_tail_C (r t : Nat) (hr : 0 < r) (h3 : r + r + r + t = 2 ^ 64 - 1) :
    free_loop (r + r) [] 0 [⟨r, block_state.ALLOCATED⟩, ⟨r, block_state.ALLOCATED⟩, ⟨r, block_state.ALLOCATED⟩, ⟨t, block_state.FREE⟩]
      = some [⟨r, block_state.ALLOCATED⟩, ⟨r, block_state.ALLOCATED⟩, ⟨r + t, block_state.FREE⟩] := by
  simp only [free_loop, free_here]
  split_ifs <;> first | omega | contradiction | (simp [SIZE_MAX]; try omega)

theorem free_step_tail_AB (r t : Nat) (hr : 0 < r) (h3 : r + r + r + t = 2 ^ 64 - 1) :
    free_loop (r) [] 0 [⟨r, block_state.FREE⟩, ⟨r, block_state.ALLOCATED⟩, ⟨r, block_state.ALLOCATED⟩, ⟨t, block_state.FREE⟩]
      = some [⟨r + r, block_state.FREE⟩, ⟨r, block_state.ALLOCATED⟩, ⟨t, block_state.FREE⟩] := by
  simp only [free_loop, free_here]
  split_ifs <;> first | omega | contradiction | (simp [SIZE_MAX]; try omega)

theorem free_step_tail_AC (r t : Nat) (hr : 0 < r) (h3 : r + r + r + t = 2 ^ 64 - 1) :
    free_loop (r + r) [] 0 [⟨r, block_state.FREE⟩, ⟨r, block_state.ALLOCATED⟩, ⟨r, block_state.ALLOCATED⟩, ⟨t, block_state.FREE⟩]
      = some [⟨r, block_state.FREE⟩, ⟨r, block_state.ALLOCATED⟩, ⟨r + t, block_state.FREE⟩] := by
  simp only [free_loop, free_here]
  split_ifs <;> first | omega | contradiction | (simp [SIZE_MAX]; try omega)

theorem free_step_tail_BA (r t : Nat) (hr : 0 < r) (h3 : r + r + r + t = 2 ^ 64 - 1) :
    free_loop (0) [] 0 [⟨r, block_state.ALLOCATED⟩, ⟨r, block_state.FREE⟩, ⟨r, block_state.ALLOCATED⟩, ⟨t, block_state.FREE⟩]
      = some [⟨r + r, block_state.FREE⟩, ⟨r, block_state.ALLOCATED⟩, ⟨t, block_state.FREE⟩] := by
  simp only [free_loop, free_here]
  split_ifs <;> first | omega | contradiction | (simp [SIZE_MAX]; try omega)

theorem free_step_tail_BC (r t : Nat) (hr : 0 < r) (h3 : r + r + r + t = 2 ^ 64 - 1) :
    free_loop (r + r) [] 0 [⟨r, block_state.ALLOCATED⟩, ⟨r, block_state.FREE⟩, ⟨r, block_state.ALLOCATED⟩, ⟨t, block_state.FREE⟩]
      = some [⟨r, block_state.ALLOCATED⟩, ⟨r + r + t, block_state.FREE⟩] := by
  simp only [free_loop, free_here]
  split_ifs <;> first | omega | contradiction | (simp [SIZE_MAX]; try omega)

theorem free_step_tail_CA (r t : Nat) (hr : 0 < r) (h3 : r + r + r + t = 2 ^ 64 - 1) :
    free_loop (0) [] 0 [⟨r, block_state.ALLOCATED⟩, ⟨r, block_state.ALLOCATED⟩, ⟨r + t, block_state.FREE⟩]
      = some [⟨r, block_state.FREE⟩, ⟨r, block_state.ALLOCATED⟩, ⟨r + t, block_state.FREE⟩] := by
  simp only [free_loop, free_here]
  split_ifs <;> first | omega | contradiction | (simp [SIZE_MAX]; try omega)

theorem free_step_tail_CB (r t : Nat) (hr : 0 < r) (h3 : r + r + r + t = 2 ^ 64 - 1) :
    free_loop (r) [] 0 [⟨r, block_state.ALLOCATED⟩, ⟨r, block_state.ALLOCATED⟩, ⟨r + t, block_state.FREE⟩]
      = some [⟨r, block_state.ALLOCATED⟩, ⟨r + r + t, block_state.FREE⟩] := by
  simp only [free_loop, free_here]
  split_ifs <;> first | omega | contradiction | (simp [SIZE_MAX]; try omega)

theorem free_step_tail_x (r t : Nat) (hr : 0 < r) (h3 : r + r + r + t = 2 ^ 64 - 1) :
    free_loop (r + r) [] 0 [⟨r + r, block_state.FREE⟩, ⟨r, block_state.ALLOCATED⟩, ⟨t, block_state.FREE⟩]
      = some [⟨SIZE_MAX, block_state.FREE⟩] := by
  simp only [free_loop, free_here]
  split_ifs <;> first | omega | contradiction | (simp [SIZE_MAX]; try omega)

theorem free_step_tail_y (r t : Nat) (hr : 0 < r) (h3 : r + r + r + t = 2 ^ 64 - 1) :
    free_loop (r) [] 0 [⟨r, block_state.FREE⟩, ⟨r, block_state.ALLOCATED⟩, ⟨r + t, block_state.FREE⟩]
      = some [⟨SIZE_MAX, block_state.FREE⟩] := by
  simp only [free_loop, free_here]
  split_ifs <;> first | omega | contradiction | (simp [SIZE_MAX]; try omega)

theorem free_step_tail_z (r t : Nat) (hr : 0 < r) (h3 : r + r + r + t = 2 ^ 64 - 1) :
    free_loop (0) [] 0 [⟨r, block_state.ALLOCATED⟩, ⟨r + r + t, block_state.FREE⟩]
      = some [⟨SIZE_MAX, block_state.FREE⟩] := by
  simp only [free_loop, free_here]
  split_ifs <;> first | omega | contradiction | (simp [SIZE_MAX]; try omega)

theorem free_step_full_A (r : Nat) (hr : 0 < r) (h3 : r + r + r = 2 ^ 64 - 1) :
    free_loop (0) [] 0 [⟨r, block_state.ALLOCATED⟩, ⟨r, block_state.ALLOCATED⟩, ⟨r, block_state.ALLOCATED⟩]
      = some [⟨r, block_state.FREE⟩, ⟨r, block_state.ALLOCATED⟩, ⟨r, block_state.ALLOCATED⟩] := by
  simp only [free_loop, free_here]
  split_ifs <;> first | omega | contradiction | (simp [SIZE_MAX]; try omega)

theorem free_step_full_B (r : Nat) (hr : 0 < r) (h3 : r + r + r = 2 ^ 64 - 1) :
    free_loop (r) [] 0 [⟨r, block_state.ALLOCATED⟩, ⟨r, block_state.ALLOCATED⟩, ⟨r, block_state.ALLOCATED⟩]
      = some [⟨r, block_state.ALLOCATED⟩, ⟨r, block_state.FREE⟩, ⟨r, block_state.ALLOCATED⟩] := by
  simp only [free_loop, free_here]
  split_ifs <;> first | omega | contradiction | (simp [SIZE_MAX]; try omega)

theorem free_step_full_C (r : Nat) (hr : 0 < r) (h3 : r + r + r = 2 ^ 64 - 1) :
    free_loop (r + r) [] 0 [⟨r, block_state.ALLOCATED⟩, ⟨r, block_state.ALLOCATED⟩, ⟨r, block_state.ALLOCATED⟩]
      = some [⟨r, block_state.ALLOCATED⟩, ⟨r, block_state.ALLOCATED⟩, ⟨r, block_state.FREE⟩] := by
  simp only [free_loop, free_here]
  split_ifs <;> first | omega | contradiction | (simp [SIZE_MAX]; try omega)

theorem free_step_full_AB (r : Nat) (hr : 0 < r) (h3 : r + r + r = 2 ^ 64 - 1) :
    free_loop (r) [] 0 [⟨r, block_state.FREE⟩, ⟨r, block_state.ALLOCATED⟩, ⟨r, block_state.ALLOCATED⟩]
      = some [⟨r + r, block_state.FREE⟩, ⟨r, block_state.ALLOCATED⟩] := by
  simp only [free_loop, free_here]
  split_ifs <;> first | omega | contradiction | (simp [SIZE_MAX]; try omega)

theorem free_step_full_AC (r : Nat) (hr : 0 < r) (h3 : r + r + r = 2 ^ 64 - 1) :
    free_loop (r + r) [] 0 [⟨r, block_state.FREE⟩, ⟨r, block_state.ALLOCATED⟩, ⟨r, block_state.ALLOCATED⟩]
      = some [⟨r, block_state.FREE⟩, ⟨r, block_state.ALLOCATED⟩, ⟨r, block_state.FREE⟩] := by
  simp only [free_loop, free_here]
  split_ifs <;> first | omega | contradiction | (simp [SIZE_MAX]; try omega)

theorem free_step_full_BA (r : Nat) (hr : 0 < r) (h3 : r + r + r = 2 ^ 64 - 1) :
    free_loop (0) [] 0 [⟨r, block_state.ALLOCATED⟩, ⟨r, block_state.FREE⟩, ⟨r, block_state.ALLOCATED⟩]
      = some [⟨r + r, block_state.FREE⟩, ⟨r, block_state.ALLOCATED⟩] := by
  simp only [free_loop, free_here]
  split_ifs <;> first | omega | contradiction | (simp [SIZE_MAX]; try omega)

theorem free_step_full_BC (r : Nat) (hr : 0 < r) (h3 : r + r + r = 2 ^ 64 - 1) :
    free_loop (r + r) [] 0 [⟨r, block_state.ALLOCATED⟩, ⟨r, block_state.FREE⟩, ⟨r, block_state.ALLOCATED⟩]
      = some [⟨r, block_state.ALLOCATED⟩, ⟨r + r, block_state.FREE⟩] := by
  simp only [free_loop, free_here]
  split_ifs <;> first | omega | contradiction | (simp [SIZE_MAX]; try omega)

theorem free_step_full_CA (r : Nat) (hr : 0 < r) (h3 : r + r + r = 2 ^ 64 - 1) :
    free_loop (0) [] 0 [⟨r, block_state.ALLOCATED⟩, ⟨r, block_state.ALLOCATED⟩, ⟨r, block_state.FREE⟩]
      = some [⟨r, block_state.FREE⟩, ⟨r, block_state.ALLOCATED⟩, ⟨r, block_state.FREE⟩] := by
  simp only [free_loop, free_here]
  split_ifs <;> first | omega | contradiction | (simp [SIZE_MAX]; try omega)

theorem free_step_full_CB (r : Nat) (hr : 0 < r) (h3 : r + r + r = 2 ^ 64 - 1) :
    free_loop (r) [] 0 [⟨r, block_state.ALLOCATED⟩, ⟨r, block_state.ALLOCATED⟩, ⟨r, block_state.FREE⟩]
      = some [⟨r, block_state.ALLOCATED⟩, ⟨r + r, block_state.FREE⟩] := by
  simp only [free_loop, free_here]
  split_ifs <;> first | omega | contradiction | (simp [SIZE_MAX]; try omega)

theorem free_step_full_x (r : Nat) (hr : 0 < r) (h3 : r + r + r = 2 ^ 64 - 1) :
    free_loop (r + r) [] 0 [⟨r + r, block_state.FREE⟩, ⟨r, block_state.ALLOCATED⟩]
      = some [⟨SIZE_MAX, block_state.FREE⟩] := by
  simp only [free_loop, free_here]
  split_ifs <;> first | omega | contradiction | (simp [SIZE_MAX]; try omega)

theorem free_step_full_y (r : Nat) (hr : 0 < r) (h3 : r + r + r = 2 ^ 64 - 1) :
    free_loop (r) [] 0 [⟨r, block_state.FREE⟩, ⟨r, block_state.ALLOCATED⟩, ⟨r, block_state.FREE⟩]
      = some [⟨SIZE_MAX, block_state.FREE⟩] := by
  simp only [free_loop, free_here]
  split_ifs <;> first | omega | contradiction | (simp [SIZE_MAX]; try omega)

theorem free_step_full_z (r : Nat) (hr : 0 < r) (h3 : r + r + r = 2 ^ 64 - 1) :
    free_loop (0) [] 0 [⟨r, block_state.ALLOCATED⟩, ⟨r + r, block_state.FREE⟩]
      = some [⟨SIZE_MAX, block_state.FREE⟩] := by
  simp only [free_loop, free_here]
  split_ifs <;> first | omega | contradiction | (simp [SIZE_MAX]; try omega)

/-- Three adjacent ALLOCATED blocks of size `r` followed by the FREE rest of the pool:
freeing them in any order leaves one FREE block. -/
theorem frees_coalesce_tail (m : MemoryManager) (r t : Nat) (hr : 0 < r)
    (h3 : r + r + r + t = 2 ^ 64 - 1)
    (hl : m.m_node_list = [⟨r, block_state.ALLOCATED⟩, ⟨r, block_state.ALLOCATED⟩, ⟨r, block_state.ALLOCATED⟩, ⟨t, block_state.FREE⟩]) :
    frees_coalesce m (0) (r) (r + r) ∧
    frees_coalesce m (0) (r + r) (r) ∧
    frees_coalesce m (r) (0) (r + r) ∧
    frees_coalesce m (r) (r + r) (0) ∧
    frees_coalesce m (r + r) (0) (r) ∧
    frees_coalesce m (r + r) (r) (0) :=
  ⟨frees_coalesce_of_steps m _ _ _ _ _ (hl ▸ free_step_tail_A r t hr h3)
      (free_step_tail_AB r t hr h3) (free_step_tail_x r t hr h3),
    frees_coalesce_of_steps m _ _ _ _ _ (hl ▸ free_step_tail_A r t hr h3)
      (free_step_tail_AC r t hr h3) (free_step_tail_y r t hr h3),
    frees_coalesce_of_steps m _ _ _ _ _ (hl ▸ free_step_tail_B r t hr h3)
      (free_step_tail_BA r t hr h3) (free_step_tail_x r t hr h3),
    frees_coalesce_of_steps m _ _ _ _ _ (hl ▸ free_step_tail_B r t hr h3)
      (free_step_tail_BC r t hr h3) (free_step_tail_z r t hr h3),
    frees_coalesce_of_steps m _ _ _ _ _ (hl ▸ free_step_tail_C r t hr h3)
      (free_step_tail_CA r t hr h3) (free_step_tail_y r t hr h3),
    frees_coalesce_of_steps m _ _ _ _ _ (hl ▸ free_step_tail_C r t hr h3)
      (free_step_tail_CB r t hr h3) (free_step_tail_z r t hr h3)⟩

/-- Three adjacent ALLOCATED blocks of size `r` that fill the pool: freeing them in any
order leaves one FREE block. -/
theorem frees_coalesce_full (m : MemoryManager) (r : Nat) (hr : 0 < r)
    (h3 : r + r + r = 2 ^ 64 - 1)
    (hl : m.m_node_list = [⟨r, block_state.ALLOCATED⟩, ⟨r, block_state.ALLOCATED⟩, ⟨r, block_state.ALLOCATED⟩]) :
    frees_coalesce m (0) (r) (r + r) ∧
    frees_coalesce m (0) (r + r) (r) ∧
    frees_coalesce m (r) (0) (r + r) ∧
    frees_coalesce m (r) (r + r) (0) ∧
    frees_coalesce m (r + r) (0) (r) ∧
    frees_coalesce m (r + r) (r) (0) :=
  ⟨frees_coalesce_of_steps m _ _ _ _ _ (hl ▸ free_step_full_A r hr h3)
      (free_step_full_AB r hr h3) (free_step_full_x r hr h3),
    frees_coalesce_of_steps m _ _ _ _ _ (hl ▸ free_step_full_A r hr h3)
      (free_step_full_AC r hr h3) (free_step_full_y r hr h3),
    frees_coalesce_of_steps m _ _ _ _ _ (hl ▸ free_step_full_B r hr h3)
      (free_step_full_BA r hr h3) (free_step_full_x r hr h3),
    frees_coalesce_of_steps m _ _ _ _ _ (hl ▸ free_step_full_B r hr h3)
      (free_step_full_BC r hr h3) (free_step_full_z r hr h3),
    frees_coalesce_of_steps m _ _ _ _ _ (hl ▸ free_step_full_C r hr h3)
      (free_step_full_CA r hr h3) (free_step_full_y r hr h3),
    frees_coalesce_of_steps m _ _ _ _ _ (hl ▸ free_step_full_C r hr h3)
      (free_step_full_CB r hr h3) (free_step_full_z r hr h3)⟩

/-- The first `allocate` on a freshly constructed manager. -/
theorem allocate_fresh (a s o : Nat) (m1 : MemoryManager)
    (h : (MemoryManager.new a).allocate s = Except.ok (o, m1)) :
    0 < MemoryManager.align s a ∧ MemoryManager.align s a ≤ 2 ^ 64 - 1 ∧ o = 0 ∧
    m1.m_alignment = a ∧ m1.m_scheme = allocation_scheme.BEST_FIT ∧
    m1.m_node_list =
      if MemoryManager.align s a < 2 ^ 64 - 1 then
        [⟨MemoryManager.align s a, block_state.ALLOCATED⟩,
          ⟨2 ^ 64 - 1 - MemoryManager.align s a, block_state.FREE⟩]
      else [⟨2 ^ 64 - 1, block_state.ALLOCATED⟩] := by
  generalize hr : MemoryManager.align s a = r
  simp only [MemoryManager.allocate, MemoryManager.new, MemoryManager.best_fit,
    best_fit_loop, hr, SIZE_MAX] at h
  split_ifs at h with h1 h2 h3
  · obtain ⟨rfl, rfl⟩ := Prod.mk.inj (Except.ok.inj h)
    simp only at h1 h2 h3
    have hlt : ¬ r < 2 ^ 64 - 1 := by omega
    refine ⟨by omega, by omega, ?_⟩
    simp [-Nat.reducePow, hlt, flip_at]
  · obtain ⟨rfl, rfl⟩ := Prod.mk.inj (Except.ok.inj h)
    simp only at h1 h2 h3
    have hlt : r < 2 ^ 64 - 1 := by omega
    refine ⟨by omega, by omega, ?_⟩
    simp [-Nat.reducePow, hlt, split_at]

/-- A further `allocate` of the same rounded size `r` on a BEST_FIT manager whose list
is ALLOCATED blocks of size `r` followed by one FREE block. -/
theorem allocate_after (a s o t mx : Nat) (front : List node) (m2 : MemoryManager)
    (hfront : ∀ b ∈ front, b.m_state = block_state.ALLOCATED)
    (hfit : total front + t ≤ 2 ^ 64 - 1)
    (h : MemoryManager.allocate
        ⟨a, allocation_scheme.BEST_FIT, front ++ [⟨t, block_state.FREE⟩], mx⟩ s
      = Except.ok (o, m2)) :
    MemoryManager.align s a ≤ t ∧ o = total front ∧
    m2.m_alignment = a ∧ m2.m_scheme = allocation_scheme.BEST_FIT ∧
    m2.m_node_list =
      if MemoryManager.align s a < t then
        front ++ [⟨MemoryManager.align s a, block_state.ALLOCATED⟩,
          ⟨t - MemoryManager.align s a, block_state.FREE⟩]
      else front ++ [⟨t, block_state.ALLOCATED⟩] := by
  obtain ⟨pre, it, post, hl, hit, ho, rfl⟩ := allocate_ok_shape h
  simp only at hl hit ho ⊢
  have hpre : pre = front ∧ it = ⟨t, block_state.FREE⟩ ∧ post = [] := by
    rcases List.append_eq_append_iff.1 hl with ⟨a2, h1, h2⟩ | ⟨c2, h1, h2⟩
    · cases a2 with
      | nil =>
        simp only [List.append_nil, List.nil_append, List.cons.injEq] at h1 h2
        exact ⟨h1, h2.1.symm, h2.2.symm⟩
      | cons d a2 =>
        simp only [List.cons_append, List.cons.injEq] at h2
        have := h2.2
        simp at this
    · cases c2 with
      | nil =>
        simp only [List.append_nil, List.nil_append, List.cons.injEq] at h1 h2
        exact ⟨h1.symm, h2.1, h2.2⟩
      | cons d c2 =>
        simp only [List.cons_append, List.cons.injEq] at h2
        obtain ⟨rfl, _⟩ := h2
        have := hfront it (by rw [h1]; simp)
        rw [hit.1] at this
        cases this
  obtain ⟨rfl, rfl, rfl⟩ := hpre
  have h2 := hit.2
  simp only at h2
  refine ⟨h2, ?_, ?_⟩
  · rw [ho]; apply Nat.mod_eq_of_lt; omega
  · unfold carve
    split <;> simp

/-- No `allocate` succeeds when every block is ALLOCATED. -/
theorem allocate_none_free (m : MemoryManager) (s o : Nat) (m2 : MemoryManager)
    (hall : ∀ b ∈ m.m_node_list, b.m_state = block_state.ALLOCATED)
    (h : m.allocate s = Except.ok (o, m2)) : False := by
  obtain ⟨pre, it, post, hl, hit, _, _⟩ := allocate_ok_shape h
  have := hall it (by rw [hl]; simp)
  rw [hit.1] at this
  cases this

theorem manager_eta (m : MemoryManager) (a : Nat) (sch : allocation_scheme) (l : List node)
    (h1 : m.m_alignment = a) (h2 : m.m_scheme = sch) (h3 : m.m_node_list = l) :
    m = ⟨a, sch, l, m.m_max_allocated⟩ := by
  cases m
  simp only at h1 h2 h3
  subst h1 h2 h3
  rfl

/-- C8: coalescing on double-neighbour free. Starting from a freshly constructed
MemoryManager (alignment `a > 0`), for every size `s`: when three consecutive
`allocate(s)` calls return, they return the offsets `0`, `r`, `2r` of three adjacent
ALLOCATED blocks `A`, `B`, `C` of the rounded size `r` that lie inside the pool, and
freeing the three returned offsets in any of the six orders succeeds at every step and
leaves a block sequence that is exactly one FREE block, which spans the whole pool and
so the extents of `A`, `B` and `C`. -/
theorem three_frees_coalesce (a s : Nat) (m1 m2 m3 : MemoryManager) (oA oB oC : Nat)
    (_ha : 0 < a)
    (hA : (MemoryManager.new a).allocate s = Except.ok (oA, m1))
    (hB : m1.allocate s = Except.ok (oB, m2))
    (hC : m2.allocate s = Except.ok (oC, m3)) :
    (oA = 0 ∧ oB = MemoryManager.align s a ∧
      oC = MemoryManager.align s a + MemoryManager.align s a ∧
      MemoryManager.align s a + MemoryManager.align s a + MemoryManager.align s a
        ≤ SIZE_MAX ∧
      ∃ rest, m3.m_node_list =
        ⟨MemoryManager.align s a, block_state.ALLOCATED⟩ ::
        ⟨MemoryManager.align s a, block_state.ALLOCATED⟩ ::
        ⟨MemoryManager.align s a, block_state.ALLOCATED⟩ :: rest) ∧
    frees_coalesce m3 oA oB oC ∧ frees_coalesce m3 oA oC oB ∧
    frees_coalesce m3 oB oA oC ∧ frees_coalesce m3 oB oC oA ∧
    frees_coalesce m3 oC oA oB ∧ frees_coalesce m3 oC oB oA := by
  obtain ⟨hr0, hrle, hoA, ha1, hs1, hl1⟩ := allocate_fresh a s oA m1 hA
  obtain ⟨r, hrdef⟩ : ∃ r, MemoryManager.align s a = r := ⟨_, rfl⟩
  rw [hrdef] at hr0 hrle hl1 ⊢
  subst hoA
  by_cases hlt1 : r < 2 ^ 64 - 1
  · simp only [hlt1, if_true] at hl1
    rw [manager_eta m1 a allocation_scheme.BEST_FIT
      ([⟨r, block_state.ALLOCATED⟩] ++ [⟨2 ^ 64 - 1 - r, block_state.FREE⟩]) ha1 hs1 hl1] at hB
    obtain ⟨hle2, hoB, ha2, hs2, hl2⟩ := allocate_after a s oB (2 ^ 64 - 1 - r) _
      [⟨r, block_state.ALLOCATED⟩] m2 (by simp) (by simp; omega) hB
    rw [hrdef] at hle2 hl2
    simp only [total_cons, total_nil, Nat.add_zero] at hoB
    subst oB
    have hlt2 : r < 2 ^ 64 - 1 - r := by omega
    simp only [hlt2, if_true] at hl2
    rw [manager_eta m2 a allocation_scheme.BEST_FIT
      ([⟨r, block_state.ALLOCATED⟩, ⟨r, block_state.ALLOCATED⟩]
        ++ [⟨2 ^ 64 - 1 - r - r, block_state.FREE⟩]) ha2 hs2 (by simpa using hl2)] at hC
    obtain ⟨hle3, hoC, _, _, hl3⟩ := allocate_after a s oC (2 ^ 64 - 1 - r - r) _
      [⟨r, block_state.ALLOCATED⟩, ⟨r, block_state.ALLOCATED⟩] m3 (by simp)
      (by simp; omega) hC
    rw [hrdef] at hle3 hl3
    simp only [total_cons, total_nil, Nat.add_zero] at hoC
    subst oC
    by_cases hlt3 : r < 2 ^ 64 - 1 - r - r
    · simp only [hlt3, if_true] at hl3
      refine ⟨⟨rfl, rfl, rfl, by unfold SIZE_MAX; omega, _, by simpa using hl3⟩, ?_⟩
      exact frees_coalesce_tail m3 r (2 ^ 64 - 1 - r - r - r) hr0 (by omega)
        (by simpa using hl3)
    · simp only [hlt3, if_false] at hl3
      have e : 2 ^ 64 - 1 - r - r = r := by omega
      rw [e] at hl3
      refine ⟨⟨rfl, rfl, rfl, by unfold SIZE_MAX; omega, _, by simpa using hl3⟩, ?_⟩
      exact frees_coalesce_full m3 r hr0 (by omega) (by simpa using hl3)
  · simp only [hlt1, if_false] at hl1
    exact (allocate_none_free m1 s oB m2 (by simp [hl1]) hB).elim

/-- The witness of C8: alignment 8 and three `allocate(5)` calls, which return the
offsets 0, 8 and 16. -/
theorem three_frees_coalesce_witness :
    frees_coalesce (MemoryManager.mk 8 allocation_scheme.BEST_FIT
        [⟨8, block_state.ALLOCATED⟩, ⟨8, block_state.ALLOCATED⟩, ⟨8, block_state.ALLOCATED⟩,
          ⟨18446744073709551591, block_state.FREE⟩] 24) 0 16 8 :=
  (three_frees_coalesce 8 5
    (MemoryManager.mk 8 allocation_scheme.BEST_FIT
      [⟨8, block_state.ALLOCATED⟩, ⟨18446744073709551607, block_state.FREE⟩] 8)
    (MemoryManager.mk 8 allocation_scheme.BEST_FIT
      [⟨8, block_state.ALLOCATED⟩, ⟨8, block_state.ALLOCATED⟩,
        ⟨18446744073709551599, block_state.FREE⟩] 16)
    (MemoryManager.mk 8 allocation_scheme.BEST_FIT
      [⟨8, block_state.ALLOCATED⟩, ⟨8, block_state.ALLOCATED⟩, ⟨8, block_state.ALLOCATED⟩,
        ⟨18446744073709551591, block_state.FREE⟩] 24)
    0 8 16 (by decide) rfl rfl rfl).2.2.1

/-! ## When `allocate` throws -/

theorem first_fit_error_of_none (m : MemoryManager) (size : Nat)
    (h : ∀ b ∈ m.m_node_list, ¬ fits (MemoryManager.align size m.m_alignment) b) :
    m.first_fit size = Except.error Exn.bad_alloc := by
  simp only [MemoryManager.first_fit, first_fit_loop_none _ m.m_node_list 0 h]

theorem first_fit_ok_of_fits (m : MemoryManager) (size : Nat)
    (h : ∃ b ∈ m.m_node_list, fits (MemoryManager.align size m.m_alignment) b) :
    ∃ o m2, m.first_fit size = Except.ok (o, m2) := by
  obtain ⟨pre, it, post, _, _, _, hres⟩ :=
    first_fit_loop_spec (MemoryManager.align size m.m_alignment) m.m_node_list 0
      (by norm_num) h
  simp only [MemoryManager.first_fit, hres]
  exact ⟨_, _, rfl⟩

theorem best_fit_error_of_none (m : MemoryManager) (size : Nat)
    (h : ∀ b ∈ m.m_node_list, ¬ fits (MemoryManager.align size m.m_alignment) b) :
    m.best_fit size = Except.error Exn.bad_alloc := by
  rcases best_fit_loop_spec (MemoryManager.align size m.m_alignment) m.m_node_list 0 0
      { min_delta := SIZE_MAX, best_fit := none, best_offset := 0 } (by norm_num)
    with ⟨_, hres⟩ | ⟨pre, it, post, hl, hit, _⟩
  · simp only [MemoryManager.best_fit, hres]
  · exact absurd hit (h it (by rw [hl]; simp))

theorem best_fit_ok_of_fits (m : MemoryManager) (size : Nat)
    (hr : 0 < MemoryManager.align size m.m_alignment)
    (hsz : ∀ b ∈ m.m_node_list, b.m_size ≤ SIZE_MAX)
    (h : ∃ b ∈ m.m_node_list, fits (MemoryManager.align size m.m_alignment) b) :
    ∃ o m2, m.best_fit size = Except.ok (o, m2) := by
  rcases best_fit_loop_spec (MemoryManager.align size m.m_alignment) m.m_node_list 0 0
      { min_delta := SIZE_MAX, best_fit := none, best_offset := 0 } (by norm_num)
    with ⟨hall, _⟩ | ⟨pre, it, post, hl, hit, _, _, _, hres⟩
  · exfalso
    obtain ⟨b, hb, hf⟩ := h
    have h1 := hall b hb hf
    have h2 := hsz b hb
    have h3 := hf.2
    simp only at h1
    omega
  · exact ⟨_, _, best_fit_of_loop m size pre it post hl hit hres⟩

theorem align_lt_of_no_wrap {size alignment : Nat} (hs : size < 2 ^ 64)
    (hal : alignment < 2 ^ 64) (hw : align_no_wrap size alignment) :
    MemoryManager.align size alignment < 2 ^ 64 := by
  unfold MemoryManager.align
  split
  · exact hal
  · dsimp only
    split
    · exact Nat.mod_lt _ (by norm_num)
    · exact hs

/-- C11: `allocate(size)` fails with `std::bad_alloc` if and only if no FREE block of
the sequence has size `>= align(size, alignment)`, under FIRST_FIT and under BEST_FIT,
for every list of `size_t` block sizes and every alignment `> 0` with a non-wrapping
rounded size; consequently `allocate` on a freshly constructed manager (either
strategy) returns for such a size. -/
theorem allocate_fails_iff_no_block_fits (m : MemoryManager) (size : Nat)
    (ha : 0 < m.m_alignment) (hw : align_no_wrap size m.m_alignment)
    (hsz : ∀ b ∈ m.m_node_list, b.m_size ≤ SIZE_MAX) :
    (m.first_fit size = Except.error Exn.bad_alloc ↔
      ¬ ∃ b ∈ m.m_node_list, b.m_state = block_state.FREE ∧
        MemoryManager.align size m.m_alignment ≤ b.m_size) ∧
    (m.best_fit size = Except.error Exn.bad_alloc ↔
      ¬ ∃ b ∈ m.m_node_list, b.m_state = block_state.FREE ∧
        MemoryManager.align size m.m_alignment ≤ b.m_size) ∧
    (m.allocate size = Except.error Exn.bad_alloc ↔
      ¬ ∃ b ∈ m.m_node_list, b.m_state = block_state.FREE ∧
        MemoryManager.align size m.m_alignment ≤ b.m_size) ∧
    (size < 2 ^ 64 → m.m_alignment < 2 ^ 64 → ∀ scheme : allocation_scheme,
      ∃ o m2, MemoryManager.allocate
        { MemoryManager.new m.m_alignment with m_scheme := scheme } size
          = Except.ok (o, m2)) := by
  have hr := align_pos ha hw
  have hff : m.first_fit size = Except.error Exn.bad_alloc ↔
      ¬ ∃ b ∈ m.m_node_list, b.m_state = block_state.FREE ∧
        MemoryManager.align size m.m_alignment ≤ b.m_size := by
    constructor
    · intro herr hex
      obtain ⟨o, m2, hok⟩ := first_fit_ok_of_fits m size hex
      rw [hok] at herr
      cases herr
    · intro hne
      exact first_fit_error_of_none m size (fun b hb hf => hne ⟨b, hb, hf⟩)
  have hbf : m.best_fit size = Except.error Exn.bad_alloc ↔
      ¬ ∃ b ∈ m.m_node_list, b.m_state = block_state.FREE ∧
        MemoryManager.align size m.m_alignment ≤ b.m_size := by
    constructor
    · intro herr hex
      obtain ⟨o, m2, hok⟩ := best_fit_ok_of_fits m size hr hsz hex
      rw [hok] at herr
      cases herr
    · intro hne
      exact best_fit_error_of_none m size (fun b hb hf => hne ⟨b, hb, hf⟩)
  refine ⟨hff, hbf, ?_, ?_⟩
  · unfold MemoryManager.allocate
    split
    · exact hff
    · exact hbf
  · intro hs hal scheme
    have hlt := align_lt_of_no_wrap hs hal hw
    have hfit : ∃ b ∈ [(⟨SIZE_MAX, block_state.FREE⟩ : node)],
        fits (MemoryManager.align size m.m_alignment) b :=
      ⟨⟨SIZE_MAX, block_state.FREE⟩, by simp, rfl, by unfold SIZE_MAX; simp only; omega⟩
    cases scheme with
    | FIRST_FIT =>
      exact first_fit_ok_of_fits
        { MemoryManager.new m.m_alignment with m_scheme := allocation_scheme.FIRST_FIT }
        size hfit
    | BEST_FIT =>
      exact best_fit_ok_of_fits
        { MemoryManager.new m.m_alignment with m_scheme := allocation_scheme.BEST_FIT }
        size hr (by simp [MemoryManager.new]) hfit

/-- The witness of C11: alignment 8, blocks `[16 ALLOCATED, 8 FREE]`, request 9. -/
theorem allocate_fails_iff_no_block_fits_witness :
    (MemoryManager.mk 8 allocation_scheme.BEST_FIT
      [⟨16, block_state.ALLOCATED⟩, ⟨8, block_state.FREE⟩] 16).allocate 9
      = Except.error Exn.bad_alloc :=
  (allocate_fails_iff_no_block_fits
    (MemoryManager.mk 8 allocation_scheme.BEST_FIT
      [⟨16, block_state.ALLOCATED⟩, ⟨8, block_state.FREE⟩] 16) 9
    (by decide) (by decide) (by decide)).2.2.1.2 (by decide)

/-! ## Rounding to the alignment -/

/-- The value of `align` on a non-zero size when the addition does not wrap: the size
itself when the alignment divides it, the next multiple of the alignment otherwise. -/
theorem align_eq_of_pos {s a : Nat} (hs : 0 < s) (hw : align_no_wrap s a) :
    MemoryManager.align s a = if s % a = 0 then s else s + (a - s % a) := by
  unfold MemoryManager.align
  have hs0 : ¬ s = 0 := by omega
  simp only [hs0, if_false]
  by_cases hr : s % a = 0
  · simp [hr]
  · have hpos : s % a > 0 := by omega
    simp only [hpos, if_true, hr, if_false]
    rcases hw with h | h | h
    · omega
    · omega
    · exact Nat.mod_eq_of_lt h

theorem align_dvd {s a : Nat} (ha : 0 < a) (hw : align_no_wrap s a) :
    a ∣ MemoryManager.align s a := by
  by_cases hs : s = 0
  · subst hs
    simp [MemoryManager.align]
  · rw [align_eq_of_pos (by omega) hw]
    have hlt := Nat.mod_lt s ha
    split
    · exact Nat.dvd_of_mod_eq_zero (by assumption)
    · refine ⟨s / a + 1, ?_⟩
      have := Nat.div_add_mod s a
      rw [Nat.mul_add, Nat.mul_one]
      omega

/-- C12: alignment rounding. For every alignment `a > 0` and every size `s` whose
rounded value is representable, `align(s, a)` is `a` when `s = 0` and otherwise the
least multiple of `a` that is `>= s`; so `align(s, a) = s` when `a` divides a non-zero
`s`, the result is always a positive multiple of `a`, and
`align(align(s, a), a) = align(s, a)`. -/
theorem align_rounds_up (s a : Nat) (ha : 0 < a) (hw : align_no_wrap s a) :
    (s = 0 → MemoryManager.align s a = a) ∧
    (0 < s → a ∣ MemoryManager.align s a ∧ s ≤ MemoryManager.align s a ∧
      ∀ k, a ∣ k → s ≤ k → MemoryManager.align s a ≤ k) ∧
    (0 < s → a ∣ s → MemoryManager.align s a = s) ∧
    (0 < MemoryManager.align s a ∧ a ∣ MemoryManager.align s a) ∧
    MemoryManager.align (MemoryManager.align s a) a = MemoryManager.align s a := by
  have hdvd := align_dvd ha hw
  have hpos := align_pos ha hw
  refine ⟨?_, ?_, ?_, ⟨hpos, hdvd⟩, ?_⟩
  · intro hs
    simp [MemoryManager.align, hs]
  · intro hs
    refine ⟨hdvd, ?_, ?_⟩
    · rw [align_eq_of_pos hs hw]
      split <;> omega
    · intro k hk hsk
      rw [align_eq_of_pos hs hw]
      have hlt := Nat.mod_lt s ha
      split
      · exact hsk
      · obtain ⟨j, rfl⟩ := hk
        have hdm := Nat.div_add_mod s a
        have hj : s / a < j := by
          by_contra hle
          have : a * j ≤ a * (s / a) := Nat.mul_le_mul_left a (Nat.le_of_not_lt hle)
          omega
        have : a * (s / a + 1) ≤ a * j := Nat.mul_le_mul_left a hj
        rw [Nat.mul_add, Nat.mul_one] at this
        omega
  · intro hs hd
    rw [align_eq_of_pos hs hw, if_pos (Nat.mod_eq_zero_of_dvd hd)]
  · have hmod : MemoryManager.align s a % a = 0 := Nat.mod_eq_zero_of_dvd hdvd
    have hne : ¬ MemoryManager.align s a = 0 := by omega
    rw [MemoryManager.align.eq_1 (MemoryManager.align s a) a]
    simp only [hne, if_false, hmod, gt_iff_lt, Nat.lt_irrefl]

/-- The witness of C12: `align(13, 8) = 16`, the least multiple of 8 that is at least
13. -/
theorem align_rounds_up_witness :
    MemoryManager.align 13 8 = 16 ∧
    (8 ∣ MemoryManager.align 13 8 ∧ 13 ≤ MemoryManager.align 13 8 ∧
      ∀ k, 8 ∣ k → 13 ≤ k → MemoryManager.align 13 8 ≤ k) :=
  ⟨rfl, (align_rounds_up 13 8 (by decide) (by decide)).2.1 (by decide)⟩

/-! ## The constructor -/

/-- C14: initial state. For every alignment, a freshly constructed MemoryManager has a
block sequence of exactly one block, which is FREE and has size
`numeric_limits<size_t>::max()`, and a high-water mark of 0 (it keeps the alignment and
its scheme is BEST_FIT). -/
theorem new_initial_state (alignment : Nat) :
    (MemoryManager.new alignment).m_node_list = [⟨SIZE_MAX, block_state.FREE⟩] ∧
    SIZE_MAX = 18446744073709551615 ∧
    (MemoryManager.new alignment).m_max_allocated = 0 ∧
    (MemoryManager.new alignment).m_alignment = alignment ∧
    (MemoryManager.new alignment).m_scheme = allocation_scheme.BEST_FIT :=
  ⟨rfl, rfl, rfl, rfl, rfl⟩

/-! ## The layout pass -/

theorem found_liveness_foldl {CallBase : Type} (is_liveness : CallBase → Bool) :
    ∀ (l : List CallBase) (found : Bool),
      l.foldl (fun found pass => if is_liveness pass then true else found) found
        = (found || l.any is_liveness) := by
  intro l
  induction l with
  | nil => intro found; simp
  | cons p l ih =>
    intro found
    rw [List.foldl_cons, ih]
    cases hp : is_liveness p <;> cases found <;> simp [hp]

/-- C13: dependency gate. For every list of registered passes, `check_dependencies`
throws its `runtime_error` if and only if the list contains no Liveness pass; when a
Liveness pass is present it returns, whichever and however many other passes are
present and wherever the Liveness pass stands in the list. -/
theorem check_dependencies_iff_no_liveness {CallBase : Type}
    (is_liveness : CallBase → Bool) (registered_passes : List CallBase) :
    (MemoryLayout.check_dependencies is_liveness registered_passes
        = Except.error (PassExn.runtime_error
            "Dependency 'PropagateTypes' not found for pass 'AssignTensors'") ↔
      ∀ pass ∈ registered_passes, is_liveness pass = false) ∧
    (MemoryLayout.check_dependencies is_liveness registered_passes = Except.ok () ↔
      ∃ pass ∈ registered_passes, is_liveness pass = true) ∧
    (∀ (before after : List CallBase) (pass : CallBase), is_liveness pass = true →
      MemoryLayout.check_dependencies is_liveness (before ++ pass :: after)
        = Except.ok ()) := by
  have key : ∀ l : List CallBase,
      MemoryLayout.check_dependencies is_liveness l
        = if l.any is_liveness then Except.ok ()
          else Except.error (PassExn.runtime_error
            "Dependency 'PropagateTypes' not found for pass 'AssignTensors'") := by
    intro l
    unfold MemoryLayout.check_dependencies
    simp only [found_liveness_foldl, Bool.false_or]
    cases l.any is_liveness <;> simp
  refine ⟨?_, ?_, ?_⟩
  · rw [key]
    cases h : registered_passes.any is_liveness
    · simp only [Bool.false_eq_true, if_false, true_iff]
      intro pass hp
      cases hl : is_liveness pass
      · rfl
      · have : registered_passes.any is_liveness = true :=
          List.any_eq_true.2 ⟨pass, hp, hl⟩
        rw [h] at this
        cases this
    · simp only [if_true]
      constructor
      · intro hbad; cases hbad
      · intro hall
        obtain ⟨pass, hp, hl⟩ := List.any_eq_true.1 h
        rw [hall pass hp] at hl
        cases hl
  · rw [key]
    cases h : registered_passes.any is_liveness
    · simp only [Bool.false_eq_true, if_false]
      constructor
      · intro hbad; cases hbad
      · rintro ⟨pass, hp, hl⟩
        have : registered_passes.any is_liveness = true :=
          List.any_eq_true.2 ⟨pass, hp, hl⟩
        rw [h] at this
        cases this
    · simp only [if_true, true_iff]
      exact List.any_eq_true.1 h
  · intro before after pass hl
    rw [key]
    have : (before ++ pass :: after).any is_liveness = true :=
      List.any_eq_true.2 ⟨pass, by simp, hl⟩
    simp only [this, if_true]

theorem run_on_call_list_loop_eq (nodes : List Node) :
    ∀ rest : List Node, run_on_call_list_loop rest nodes = nodes := by
  intro rest
  induction rest with
  | nil => rfl
  | cons _ rest ih => exact ih

/-- C15 (amended): layout pass. For every node list, `run_on_call_list` visits the
nodes in order with an empty loop body: it leaves every node and every tensor view as
it was, so that an unset offset stays unset, and it returns false. -/
theorem run_on_call_list_does_nothing (node_list : List Node) :
    MemoryLayout.run_on_call_list node_list = (false, node_list) := by
  unfold MemoryLayout.run_on_call_list
  rw [run_on_call_list_loop_eq]

/-- The counterexample to C15 as stated: one node that newly requires one tensor view
of size 4 whose offset is unset. After `run_on_call_list` the offset is still unset. -/
theorem run_on_call_list_counterexample :
    MemoryLayout.run_on_call_list [⟨[⟨4, none⟩], []⟩] = (false, [⟨[⟨4, none⟩], []⟩]) ∧
    ¬ (∀ node ∈ (MemoryLayout.run_on_call_list [⟨[⟨4, none⟩], []⟩]).2,
        ∀ tv ∈ node.newly_required, tv.pool_offset ≠ none) := by
  refine ⟨rfl, ?_⟩
  intro h
  exact h ⟨[⟨4, none⟩], []⟩ (by decide) ⟨4, none⟩ (by decide) rfl

/-! ## Aligned offsets -/

theorem starts_aligned_append (a : Nat) :
    ∀ (l₁ l₂ : List node) (start : Nat),
      starts_aligned a start (l₁ ++ l₂) ↔
        starts_aligned a start l₁ ∧ starts_aligned a (start + total l₁) l₂ := by
  intro l₁
  induction l₁ with
  | nil => intro l₂ start; simp [starts_aligned]
  | cons b l ih =>
    intro l₂ start
    rw [List.cons_append]
    simp only [starts_aligned]
    rw [ih, total_cons, Nat.add_assoc, and_assoc]

theorem starts_aligned_carve (a size start : Nat) (it : node) (post : List node)
    (hr : a ∣ size) (hit : fits size it)
    (h : starts_aligned a start (it :: post)) :
    starts_aligned a start (carve size it ++ post) := by
  obtain ⟨h1, h2⟩ := h
  have hle := hit.2
  unfold carve
  split
  · simp only [List.cons_append, List.nil_append, starts_aligned]
    refine ⟨h1, Nat.dvd_add h1 hr, ?_⟩
    have e : start + size + (it.m_size - size) = start + it.m_size := by omega
    rw [e]
    exact h2
  · simp only [List.cons_append, List.nil_append, starts_aligned]
    exact ⟨h1, h2⟩

theorem starts_aligned_kept_before (a start : Nat) (pre : List node)
    (h : starts_aligned a start pre) (hend : a ∣ start + total pre) :
    starts_aligned a start (kept_before pre) ∧ a ∣ start + total (kept_before pre) := by
  rcases List.eq_nil_or_concat pre with rfl | ⟨before, p, hpre⟩
  · simpa [kept_before, starts_aligned] using hend
  · rw [List.concat_eq_append] at hpre
    subst hpre
    by_cases hp : p.m_state = block_state.FREE
    · have e : kept_before (before ++ [p]) = before := by simp [kept_before, hp]
      rw [e]
      obtain ⟨h1, h2⟩ := (starts_aligned_append a before [p] start).1 h
      exact ⟨h1, h2.1⟩
    · have e : kept_before (before ++ [p]) = before ++ [p] := by simp [kept_before, hp]
      rw [e]
      exact ⟨h, hend⟩

theorem starts_aligned_kept_after (a start : Nat) (post : List node)
    (h : starts_aligned a start post) :
    starts_aligned a (start + absorbed_after post) (kept_after post) := by
  cases post with
  | nil => simp [kept_after, starts_aligned]
  | cons n rest =>
    by_cases hn : n.m_state = block_state.FREE
    · simp only [kept_after, absorbed_after, hn, if_true]
      exact h.2
    · simp only [kept_after, absorbed_after, hn, if_false, Nat.add_zero]
      exact h

/-- When no rounded size wraps, every block of a reachable state begins at a multiple
of the alignment. -/
theorem reachable_starts_aligned {a : Nat} {scheme : allocation_scheme}
    {log : List (Nat × Nat)} {m : MemoryManager} (ha : 0 < a)
    (h : ReachableNoWrap a scheme log m) : starts_aligned a 0 m.m_node_list := by
  unfold ReachableNoWrap at h
  induction h with
  | fresh => simp [MemoryManager.new, starts_aligned]
  | allocate hr _ hok hal ih =>
    have hal2 := reachable_alignment hr
    obtain ⟨pre, it, post, hl, hit, _, rfl⟩ := allocate_ok_shape hal
    rw [hal2] at hit ⊢
    rw [hl] at ih
    simp only
    rw [List.append_assoc, starts_aligned_append]
    obtain ⟨h1, h2⟩ := (starts_aligned_append a pre (it :: post) 0).1 ih
    exact ⟨h1, starts_aligned_carve a _ _ it post (align_dvd ha hok) hit h2⟩
  | free hr _ hfr ih =>
    have hsum := (reachable_invariants hr).1
    obtain ⟨pre, it, post, hl, _, _, rfl⟩ := free_ok_shape hfr
    rw [hl] at ih hsum
    obtain ⟨h1, h2, h3⟩ := (starts_aligned_append a pre (it :: post) 0).1 ih
    have hb1 := absorbed_before_le pre
    have ha1 := absorbed_after_le post
    have hkb := total_kept_before pre
    rw [total_append, total_cons] at hsum
    unfold SIZE_MAX at hsum
    have hit : it.m_size < 2 ^ 64 := by omega
    have hm : (absorbed_before pre + it.m_size + absorbed_after post) % 2 ^ 64
        = absorbed_before pre + it.m_size + absorbed_after post := by
      apply Nat.mod_eq_of_lt; omega
    obtain ⟨k1, k2⟩ := starts_aligned_kept_before a 0 pre h1 h2
    have k3 := starts_aligned_kept_after a (0 + total pre + it.m_size) post h3
    simp only [free_here_eq pre it post hit, hm]
    rw [starts_aligned_append]
    refine ⟨k1, k2, ?_⟩
    have e : 0 + total (kept_before pre)
          + (absorbed_before pre + it.m_size + absorbed_after post)
        = 0 + total pre + it.m_size + absorbed_after post := by omega
    simp only
    rw [e]
    exact k3

theorem reachable_returned_aligned {a : Nat} {scheme : allocation_scheme}
    {log : List (Nat × Nat)} {m : MemoryManager} (ha : 0 < a)
    (h : ReachableNoWrap a scheme log m) : ∀ p ∈ log, a ∣ p.1 := by
  unfold ReachableNoWrap at h
  induction h with
  | fresh => intro p hp; cases hp
  | allocate hr _ _ hal ih =>
    have hsa := reachable_starts_aligned ha hr
    have hsum := (reachable_invariants hr).1
    obtain ⟨pre, it, post, hl, _, ho, _⟩ := allocate_ok_shape hal
    rw [hl] at hsa hsum
    have h2 := ((starts_aligned_append a pre (it :: post) 0).1 hsa).2.1
    rw [total_mod_of_le (Nat.le_of_eq hsum)] at ho
    intro p hp
    rcases List.mem_cons.1 hp with rfl | hp
    · simp only [ho]
      simpa using h2
    · exact ih p hp
  | free _ _ _ ih => exact ih

/-- C17: returned offsets are aligned. In every state reachable from a freshly
constructed MemoryManager with alignment `a > 0` by `allocate` and `free` calls whose
rounded sizes do not wrap (either strategy), every block of the sequence begins at an
offset that is a multiple of `a`; therefore every offset that a successful `allocate`
has returned so far, and every offset that a further successful `allocate` returns, is
a multiple of `a`. -/
theorem block_starts_aligned (a : Nat) (scheme : allocation_scheme)
    (log : List (Nat × Nat)) (m : MemoryManager) (ha : 0 < a)
    (h : ReachableNoWrap a scheme log m) :
    (∀ pre B post, m.m_node_list = pre ++ B :: post → a ∣ total pre) ∧
    (∀ p ∈ log, a ∣ p.1) ∧
    (∀ size offset m2, m.allocate size = Except.ok (offset, m2) → a ∣ offset) := by
  have hsa := reachable_starts_aligned ha h
  have hsum := (reachable_invariants h).1
  refine ⟨?_, reachable_returned_aligned ha h, ?_⟩
  · intro pre B post hl
    rw [hl] at hsa
    simpa using ((starts_aligned_append a pre (B :: post) 0).1 hsa).2.1
  · intro size offset m2 hal
    obtain ⟨pre, it, post, hl, _, ho, _⟩ := allocate_ok_shape hal
    rw [hl] at hsa hsum
    rw [total_mod_of_le (Nat.le_of_eq hsum)] at ho
    rw [ho]
    simpa using ((starts_aligned_append a pre (it :: post) 0).1 hsa).2.1

/-- An example of a state reachable without a wrapped size: a fresh FIRST_FIT manager of
alignment 8 after `allocate(8)`, `allocate(5)` and `free(0)`. -/
theorem reachable_no_wrap_example :
    ReachableNoWrap 8 allocation_scheme.FIRST_FIT [(8, 8), (0, 8)]
      (MemoryManager.mk 8 allocation_scheme.FIRST_FIT
        [⟨8, block_state.FREE⟩, ⟨8, block_state.ALLOCATED⟩,
          ⟨18446744073709551599, block_state.FREE⟩] 16) :=
  @ReachableBy.free (fun size => align_no_wrap size 8) 8 allocation_scheme.FIRST_FIT
    [(8, 8), (0, 8)]
    (MemoryManager.mk 8 allocation_scheme.FIRST_FIT
      [⟨8, block_state.ALLOCATED⟩, ⟨8, block_state.ALLOCATED⟩,
        ⟨18446744073709551599, block_state.FREE⟩] 16) _ 0
    (@ReachableBy.allocate (fun size => align_no_wrap size 8) 8 allocation_scheme.FIRST_FIT
      [(0, 8)]
      (MemoryManager.mk 8 allocation_scheme.FIRST_FIT
        [⟨8, block_state.ALLOCATED⟩, ⟨18446744073709551607, block_state.FREE⟩] 8) _ 5 8
      (@ReachableBy.allocate (fun size => align_no_wrap size 8) 8
        allocation_scheme.FIRST_FIT [] _ _ 8 0
        ReachableBy.fresh (by norm_num) (by decide) rfl)
      (by norm_num) (by decide) rfl)
    (by norm_num) rfl

/-- The witness of C17: in the state of `reachable_no_wrap_example` the block after
`[8 FREE, 8 ALLOCATED]` begins at a multiple of 8. -/
theorem block_starts_aligned_witness :
    8 ∣ total [⟨8, block_state.FREE⟩, ⟨8, block_state.ALLOCATED⟩] :=
  (block_starts_aligned 8 allocation_scheme.FIRST_FIT [(8, 8), (0, 8)]
    (MemoryManager.mk 8 allocation_scheme.FIRST_FIT
      [⟨8, block_state.FREE⟩, ⟨8, block_state.ALLOCATED⟩,
        ⟨18446744073709551599, block_state.FREE⟩] 16)
    (by decide) reachable_no_wrap_example).1
    [⟨8, block_state.FREE⟩, ⟨8, block_state.ALLOCATED⟩]
    ⟨18446744073709551599, block_state.FREE⟩ [] rfl

/-! ## The state after a call that throws -/

/-- The loop of `first_fit` with the list it leaves behind agrees with the loop that
yields a result only when it found a block; when it finds none, the list is as it
was. -/
theorem first_fit_scan_eq (size : Nat) :
    ∀ (l : List node) (offset : Nat),
      (first_fit_loop size offset l = none →
        (first_fit_scan size offset l).1 = false ∧
        (first_fit_scan size offset l).2.2 = l) ∧
      (∀ o l2, first_fit_loop size offset l = some (o, l2) →
        first_fit_scan size offset l = (true, o, l2)) := by
  intro l
  induction l with
  | nil => intro offset; simp [first_fit_loop, first_fit_scan]
  | cons b l ih =>
    intro offset
    by_cases hb : b.m_state = block_state.FREE ∧ b.m_size ≥ size
    · by_cases hlt : b.m_size > size
      · simp [first_fit_loop, first_fit_scan, hb, hlt]
      · simp [first_fit_loop, first_fit_scan, hb, hlt]
    · obtain ⟨h1, h2⟩ := ih ((offset + b.m_size) % 2 ^ 64)
      rw [first_fit_loop, first_fit_scan, if_neg hb, if_neg hb]
      cases hres : first_fit_loop size ((offset + b.m_size) % 2 ^ 64) l with
      | none =>
        obtain ⟨e1, e2⟩ := h1 hres
        simp [-Nat.reducePow, e1, e2]
      | some p =>
        obtain ⟨o, l2⟩ := p
        have e := h2 o l2 hres
        simp [-Nat.reducePow, e]

/-- The loop of `free` with the list it leaves behind agrees with the loop that yields
a result only when it found a block; when it finds none, the list is as it was. -/
theorem free_scan_eq (offset : Nat) :
    ∀ (l rpre : List node) (so : Nat),
      (free_loop offset rpre so l = none →
        free_scan offset rpre so l = (false, rpre.reverse ++ l)) ∧
      (∀ l2, free_loop offset rpre so l = some l2 →
        free_scan offset rpre so l = (true, l2)) := by
  intro l
  induction l with
  | nil => intro rpre so; simp [free_loop, free_scan]
  | cons b l ih =>
    intro rpre so
    by_cases heq : offset = so
    · simp [free_loop, free_scan, heq]
    · obtain ⟨h1, h2⟩ := ih (b :: rpre) ((so + b.m_size) % 2 ^ 64)
      rw [free_loop, free_scan, if_neg heq, if_neg heq]
      constructor
      · intro hn
        rw [h1 hn]
        simp
      · intro l2 hs
        exact h2 l2 hs

theorem first_fit_run_eq (m : MemoryManager) (size : Nat) :
    m.first_fit_run size =
      match m.first_fit size with
      | Except.ok (o, m2) => (Except.ok o, m2)
      | Except.error e => (Except.error e, m) := by
  obtain ⟨h1, h2⟩ :=
    first_fit_scan_eq (MemoryManager.align size m.m_alignment) m.m_node_list 0
  unfold MemoryManager.first_fit_run MemoryManager.first_fit
  cases hres : first_fit_loop (MemoryManager.align size m.m_alignment) 0 m.m_node_list with
  | none =>
    obtain ⟨e1, e2⟩ := h1 hres
    simp [-Nat.reducePow, e1, e2, hres]
  | some p =>
    obtain ⟨o, l2⟩ := p
    simp [-Nat.reducePow, h2 o l2 hres, hres]

theorem best_fit_run_eq (m : MemoryManager) (size : Nat) :
    m.best_fit_run size =
      match m.best_fit size with
      | Except.ok (o, m2) => (Except.ok o, m2)
      | Except.error e => (Except.error e, m) := by
  unfold MemoryManager.best_fit_run MemoryManager.best_fit
  simp only
  split <;> rfl

theorem allocate_run_eq (m : MemoryManager) (size : Nat) :
    m.allocate_run size =
      match m.allocate size with
      | Except.ok (o, m2) => (Except.ok o, m2)
      | Except.error e => (Except.error e, m) := by
  unfold MemoryManager.allocate_run MemoryManager.allocate
  split
  · exact first_fit_run_eq m size
  · exact best_fit_run_eq m size

theorem free_run_eq (m : MemoryManager) (offset : Nat) :
    m.free_run offset =
      match m.free offset with
      | Except.ok m2 => (Except.ok (), m2)
      | Except.error e => (Except.error e, m) := by
  obtain ⟨h1, h2⟩ := free_scan_eq offset m.m_node_list [] 0
  unfold MemoryManager.free_run MemoryManager.free
  cases hres : free_loop offset [] 0 m.m_node_list with
  | none =>
    simp [h1 hres, hres]
  | some l2 =>
    simp [h2 l2 hres, hres]

/-- C18: failure atomicity of the allocator. Whenever `allocate(size)` throws
`bad_alloc` (under FIRST_FIT or BEST_FIT) or `free(offset)` throws "bad free", the
state of the manager after the call (block sequence with every size and state,
high-water mark, alignment, strategy) is identical to the state before the call. The
functions `allocate_run` and `free_run`, which carry the state through a throwing call,
return and throw exactly as `allocate` and `free` do. -/
theorem failed_call_leaves_state (m : MemoryManager) (size offset : Nat) :
    ((m.first_fit_run size).1 = Except.error Exn.bad_alloc → (m.first_fit_run size).2 = m) ∧
    ((m.best_fit_run size).1 = Except.error Exn.bad_alloc → (m.best_fit_run size).2 = m) ∧
    ((m.allocate_run size).1 = Except.error Exn.bad_alloc → (m.allocate_run size).2 = m) ∧
    ((m.free_run offset).1 = Except.error Exn.bad_free → (m.free_run offset).2 = m) ∧
    (m.allocate size = Except.error Exn.bad_alloc ↔
      (m.allocate_run size).1 = Except.error Exn.bad_alloc) ∧
    (m.free offset = Except.error Exn.bad_free ↔
      (m.free_run offset).1 = Except.error Exn.bad_free) ∧
    (∀ o m2, m.allocate size = Except.ok (o, m2) ↔ m.allocate_run size = (Except.ok o, m2)) ∧
    (∀ m2, m.free offset = Except.ok m2 ↔ m.free_run offset = (Except.ok (), m2)) := by
  refine ⟨?_, ?_, ?_, ?_, ?_, ?_, ?_, ?_⟩
  · rw [first_fit_run_eq]
    cases h : m.first_fit size with
    | error e => intro _; rfl
    | ok p => intro hbad; cases hbad
  · rw [best_fit_run_eq]
    cases h : m.best_fit size with
    | error e => intro _; rfl
    | ok p => intro hbad; cases hbad
  · rw [allocate_run_eq]
    cases h : m.allocate size with
    | error e => intro _; rfl
    | ok p => intro hbad; cases hbad
  · rw [free_run_eq]
    cases h : m.free offset with
    | error e => intro _; rfl
    | ok p => intro hbad; cases hbad
  · rw [allocate_run_eq]
    cases h : m.allocate size with
    | error e =>
      constructor
      · intro he; cases he; rfl
      · intro he; cases he; rfl
    | ok p =>
      constructor
      · intro hbad; cases hbad
      · intro hbad; cases hbad
  · rw [free_run_eq]
    cases h : m.free offset with
    | error e =>
      constructor
      · intro he; cases he; rfl
      · intro he; cases he; rfl
    | ok p =>
      constructor
      · intro hbad; cases hbad
      · intro hbad; cases hbad
  · intro o m2
    rw [allocate_run_eq]
    cases h : m.allocate size with
    | error e =>
      constructor
      · intro hbad; cases hbad
      · intro hbad; cases hbad
    | ok p =>
      obtain ⟨o1, m1⟩ := p
      constructor
      · intro he; cases he; rfl
      · intro he; cases he; rfl
  · intro m2
    rw [free_run_eq]
    cases h : m.free offset with
    | error e =>
      constructor
      · intro hbad; cases hbad
      · intro hbad; cases hbad
    | ok p =>
      constructor
      · intro he; cases he; rfl
      · intro he; cases he; rfl

/-! ## A successful allocation and the requested size -/

/-- C19 (the code at the failing inputs): on a fresh manager of alignment 7,
`allocate(2^64 - 1)` returns offset 0 and the ALLOCATED block at offset 0 has size 5,
because the rounded size `2^64 + 5` wraps to 5; with alignment 2, after `allocate(1)`,
`allocate(2^64 - 1)` returns offset 2 and the ALLOCATED block at offset 2 has size 0,
because the rounded size `2^64` wraps to 0. -/
theorem allocation_smaller_than_request :
    MemoryManager.align 18446744073709551615 7 = 5 ∧
    (MemoryManager.new 7).allocate 18446744073709551615
      = Except.ok (0, MemoryManager.mk 7 allocation_scheme.BEST_FIT
          [⟨5, block_state.ALLOCATED⟩, ⟨18446744073709551610, block_state.FREE⟩] 5) ∧
    MemoryManager.align 18446744073709551615 2 = 0 ∧
    (MemoryManager.new 2).allocate 1
      = Except.ok (0, MemoryManager.mk 2 allocation_scheme.BEST_FIT
          [⟨2, block_state.ALLOCATED⟩, ⟨18446744073709551613, block_state.FREE⟩] 2) ∧
    (MemoryManager.mk 2 allocation_scheme.BEST_FIT
        [⟨2, block_state.ALLOCATED⟩, ⟨18446744073709551613, block_state.FREE⟩] 2).allocate
          18446744073709551615
      = Except.ok (2, MemoryManager.mk 2 allocation_scheme.BEST_FIT
          [⟨2, block_state.ALLOCATED⟩, ⟨0, block_state.ALLOCATED⟩,
            ⟨18446744073709551613, block_state.FREE⟩] 2) ∧
    ¬ (18446744073709551615 ≤ (5 : Nat)) ∧ ¬ (18446744073709551615 ≤ (0 : Nat)) :=
  ⟨rfl, rfl, rfl, rfl, rfl, by decide, by decide⟩

theorem le_align {s a : Nat} (ha : 0 < a) (hw : align_no_wrap s a) :
    s ≤ MemoryManager.align s a := by
  by_cases hs : s = 0
  · subst hs; exact Nat.zero_le _
  · rw [align_eq_of_pos (by omega) hw]
    have := Nat.mod_lt s ha
    split <;> omega

/-- What C19 asks for where the rounding does not wrap: for every block list, either
strategy and alignment `> 0`, a successful `allocate(s)` whose rounded size is
representable leaves an ALLOCATED block of the rounded size, at least `s`, at the
returned offset. -/
theorem allocation_reserves_request_without_wrap (m m2 : MemoryManager)
    (size offset : Nat) (ha : 0 < m.m_alignment) (hw : align_no_wrap size m.m_alignment)
    (h : m.allocate size = Except.ok (offset, m2)) :
    ∃ pre B post, m2.m_node_list = pre ++ B :: post ∧ total pre % 2 ^ 64 = offset ∧
      B.m_state = block_state.ALLOCATED ∧
      B.m_size = MemoryManager.align size m.m_alignment ∧ size ≤ B.m_size := by
  obtain ⟨pre, it, post, hl, hit, ho, rfl⟩ := allocate_ok_shape h
  have hle := le_align ha hw
  have h2 := hit.2
  by_cases hlt : MemoryManager.align size m.m_alignment < it.m_size
  · refine ⟨pre, ⟨MemoryManager.align size m.m_alignment, block_state.ALLOCATED⟩,
      ⟨it.m_size - MemoryManager.align size m.m_alignment, block_state.FREE⟩ :: post,
      by simp [carve, hlt], ho.symm, rfl, rfl, hle⟩
  · refine ⟨pre, ⟨it.m_size, block_state.ALLOCATED⟩, post,
      by simp [carve, hlt], ho.symm, rfl, ?_, ?_⟩
    · simp only; omega
    · simp only; omega

/-! ## Live allocations -/

theorem ranges_append :
    ∀ (l₁ l₂ : List node) (start : Nat),
      ranges start (l₁ ++ l₂) = ranges start l₁ ++ ranges (start + total l₁) l₂ := by
  intro l₁
  induction l₁ with
  | nil => intro l₂ start; simp [ranges]
  | cons b l ih =>
    intro l₂ start
    rw [List.cons_append]
    simp only [ranges]
    rw [ih, total_cons, Nat.add_assoc]
    split <;> simp

theorem mem_ranges :
    ∀ (l : List node) (start : Nat) (p : Nat × Nat), p ∈ ranges start l →
      ∃ pre B post, l = pre ++ B :: post ∧ start + total pre = p.1 ∧ B.m_size = p.2 ∧
        B.m_state = block_state.ALLOCATED := by
  intro l
  induction l with
  | nil => intro start p hp; simp [ranges] at hp
  | cons b l ih =>
    intro start p hp
    have step : p ∈ ranges (start + b.m_size) l →
        ∃ pre B post, b :: l = pre ++ B :: post ∧ start + total pre = p.1 ∧
          B.m_size = p.2 ∧ B.m_state = block_state.ALLOCATED := by
      intro hp2
      obtain ⟨pre, B, post, hl, h1, h2, h3⟩ := ih (start + b.m_size) p hp2
      refine ⟨b :: pre, B, post, by simp [hl], ?_, h2, h3⟩
      rw [total_cons, ← h1]; omega
    simp only [ranges] at hp
    split at hp
    · rcases List.mem_cons.1 hp with rfl | hp2
      · exact ⟨[], b, l, rfl, by simp, rfl, by assumption⟩
      · exact step hp2
    · exact step hp

/-- The ranges of the ALLOCATED blocks lie inside the list, one after the other. -/
theorem ranges_sorted :
    ∀ (l : List node) (start : Nat),
      (∀ p ∈ ranges start l, start ≤ p.1 ∧ p.1 + p.2 ≤ start + total l) ∧
      (ranges start l).Pairwise (fun p q => p.1 + p.2 ≤ q.1) := by
  intro l
  induction l with
  | nil => intro start; simp [ranges]
  | cons b l ih =>
    intro start
    obtain ⟨h1, h2⟩ := ih (start + b.m_size)
    have hin : ∀ p ∈ ranges (start + b.m_size) l,
        start ≤ p.1 ∧ p.1 + p.2 ≤ start + total (b :: l) := by
      intro p hp
      have := h1 p hp
      rw [total_cons]
      omega
    simp only [ranges]
    split
    · constructor
      · intro p hp
        rcases List.mem_cons.1 hp with rfl | hp2
        · simp only [total_cons]; omega
        · exact hin p hp2
      · rw [List.pairwise_cons]
        refine ⟨?_, h2⟩
        intro q hq
        have := h1 q hq
        simp only
        omega
    · exact ⟨hin, h2⟩

theorem ranges_carve (size start : Nat) (it : node) (post : List node)
    (hit : fits size it) :
    ranges start (carve size it ++ post) = (start, size) :: ranges (start + it.m_size) post ∧
    ranges start (it :: post) = ranges (start + it.m_size) post := by
  obtain ⟨h1, h2⟩ := hit
  constructor
  · unfold carve
    split
    · have e : start + size + (it.m_size - size) = start + it.m_size := by omega
      simp [ranges, e]
    · have e : it.m_size = size := by omega
      simp [ranges, e]
  · simp [ranges, h1]

theorem ranges_kept_before (start : Nat) (pre : List node) :
    ranges start (kept_before pre) = ranges start pre := by
  rcases List.eq_nil_or_concat pre with rfl | ⟨before, p, hpre⟩
  · simp [kept_before]
  · rw [List.concat_eq_append] at hpre
    subst hpre
    by_cases hp : p.m_state = block_state.FREE
    · have e : kept_before (before ++ [p]) = before := by simp [kept_before, hp]
      rw [e, ranges_append]
      simp [ranges, hp]
    · have e : kept_before (before ++ [p]) = before ++ [p] := by simp [kept_before, hp]
      rw [e]

theorem ranges_kept_after (start : Nat) (post : List node) :
    ranges (start + absorbed_after post) (kept_after post) = ranges start post := by
  cases post with
  | nil => simp [kept_after, ranges]
  | cons n rest =>
    by_cases hn : n.m_state = block_state.FREE
    · simp [kept_after, absorbed_after, ranges, hn]
    · simp [kept_after, absorbed_after, hn]

/-- The ranges after `free` at the block `it` of a list that fits the pool: those of
the blocks before and after it. -/
theorem ranges_free_here (pre : List node) (it : node) (post : List node)
    (h : total (pre ++ it :: post) ≤ SIZE_MAX) :
    ranges 0 (free_here pre.reverse it post)
      = ranges 0 pre ++ ranges (total pre + it.m_size) post := by
  have h1 := total_kept_before pre
  have hb := absorbed_before_le pre
  have ha := absorbed_after_le post
  rw [total_append, total_cons] at h
  unfold SIZE_MAX at h
  have hit : it.m_size < 2 ^ 64 := by omega
  have hm : (absorbed_before pre + it.m_size + absorbed_after post) % 2 ^ 64
      = absorbed_before pre + it.m_size + absorbed_after post := by
    apply Nat.mod_eq_of_lt; omega
  rw [free_here_eq pre it post hit, hm, ranges_append, ranges_kept_before]
  have e : 0 + total (kept_before pre)
        + (absorbed_before pre + it.m_size + absorbed_after post)
      = total pre + it.m_size + absorbed_after post := by omega
  simp only [ranges, if_neg (show ¬ block_state.FREE = block_state.ALLOCATED by decide)]
  rw [e, ranges_kept_after]

/-- In a list of blocks of positive size, the block that begins at an offset is
unique. -/
theorem split_unique (pre pre2 : List node) (it B : node) (post post2 : List node)
    (hl : pre ++ it :: post = pre2 ++ B :: post2)
    (hpos : ∀ b ∈ pre ++ it :: post, 0 < b.m_size)
    (ht : total pre = total pre2) :
    pre = pre2 ∧ it = B ∧ post = post2 := by
  rcases List.append_eq_append_iff.1 hl with ⟨a2, h1, h2⟩ | ⟨c2, h1, h2⟩
  · cases a2 with
    | nil =>
      simp only [List.append_nil, List.nil_append, List.cons.injEq] at h1 h2
      exact ⟨h1.symm, h2.1, h2.2⟩
    | cons d a2 =>
      simp only [List.cons_append, List.cons.injEq] at h2
      obtain ⟨rfl, _⟩ := h2
      have := hpos it (by simp)
      rw [h1, total_append, total_cons] at ht
      omega
  · cases c2 with
    | nil =>
      simp only [List.append_nil, List.nil_append, List.cons.injEq] at h1 h2
      exact ⟨h1, h2.1.symm, h2.2.symm⟩
    | cons d c2 =>
      simp only [List.cons_append, List.cons.injEq] at h2
      obtain ⟨rfl, _⟩ := h2
      have := hpos B (by rw [hl]; simp)
      rw [h1, total_append, total_cons] at ht
      omega

theorem perm_cons_remove_live (p : Nat × Nat) :
    ∀ live : List (Nat × Nat), p ∈ live → List.Perm live (p :: remove_live p live) := by
  intro live
  induction live with
  | nil => intro hp; cases hp
  | cons q live ih =>
    intro hp
    by_cases hq : q = p
    · subst hq
      simp [remove_live]
    · have hp2 : p ∈ live := by
        rcases List.mem_cons.1 hp with h | h
        · exact absurd h.symm hq
        · exact h
      simp only [remove_live, hq, if_false]
      exact (List.Perm.cons q (ih hp2)).trans (List.Perm.swap p q _)

/-- A disciplined run is a run without wrapped sizes, and its live allocations are
exactly the ranges of the ALLOCATED blocks. -/
theorem disciplined_invariant {a : Nat} {scheme : allocation_scheme}
    {live : List (Nat × Nat)} {m : MemoryManager} (ha : 0 < a)
    (h : Disciplined a scheme live m) :
    (∃ log, ReachableNoWrap a scheme log m) ∧
    List.Perm live (ranges 0 m.m_node_list) := by
  induction h with
  | fresh =>
    exact ⟨⟨[], ReachableBy.fresh⟩, by simp [MemoryManager.new, ranges]⟩
  | allocate _ hs hok hal ih =>
    obtain ⟨⟨log, hr⟩, hperm⟩ := ih
    refine ⟨⟨_, ReachableBy.allocate hr hs hok hal⟩, ?_⟩
    have hsum := (reachable_invariants hr).1
    obtain ⟨pre, it, post, hl, hit, ho, rfl⟩ := allocate_ok_shape hal
    rw [hl] at hperm hsum
    rw [total_mod_of_le (Nat.le_of_eq hsum)] at ho
    obtain ⟨e1, e2⟩ := ranges_carve (MemoryManager.align _ _) (0 + total pre) it post hit
    rw [ranges_append, e2] at hperm
    simp only
    rw [List.append_assoc, ranges_append, e1, ho, Nat.zero_add]
    rw [Nat.zero_add] at hperm
    exact (List.Perm.cons _ hperm).trans List.perm_middle.symm
  | free _ hmem hfr ih =>
    obtain ⟨⟨log, hr⟩, hperm⟩ := ih
    have hsum := (reachable_invariants hr).1
    have hpos := reachable_no_wrap_pos ha hr
    obtain ⟨pre, it, post, hl, _, ho, rfl⟩ := free_ok_shape hfr
    rw [hl] at hperm hsum hpos
    rw [total_mod_of_le (Nat.le_of_eq hsum)] at ho
    obtain ⟨pre2, B, post2, hl2, h1, h2, h3⟩ :=
      mem_ranges _ 0 _ ((List.Perm.mem_iff hperm).1 hmem)
    simp only [Nat.zero_add] at h1
    obtain ⟨rfl, rfl, rfl⟩ :=
      split_unique pre pre2 it B post post2 hl2 hpos (by rw [ho, h1])
    simp only at h2
    subst ho
    subst h2
    have hlt : total pre < 2 ^ 64 := by
      have hsum2 := hsum
      rw [total_append, total_cons] at hsum2
      unfold SIZE_MAX at hsum2
      omega
    refine ⟨⟨_, ReachableBy.free hr hlt hfr⟩, ?_⟩
    simp only
    rw [ranges_free_here pre it post (Nat.le_of_eq hsum)]
    have hold : ranges 0 (pre ++ it :: post)
        = ranges 0 pre ++ (total pre, it.m_size) :: ranges (total pre + it.m_size) post := by
      rw [ranges_append]
      simp [ranges, h3]
    rw [hold] at hperm
    have h4 := (perm_cons_remove_live (total pre, it.m_size) _ hmem).symm.trans
      (hperm.trans List.perm_middle)
    exact List.Perm.cons_inv h4

/-- C16: live allocations never overlap. For every sequence of `allocate` and `free`
calls starting from a freshly constructed MemoryManager (alignment `> 0`, rounded sizes
that do not wrap, either strategy) in which `free` is only called on an offset returned
by an earlier `allocate` and not freed since: each live allocation's range
`[offset, offset + rounded size)` is exactly one ALLOCATED block of the sequence and is
not empty, any two live allocations occupy disjoint ranges, and `free` of a live offset
returns. -/
theorem live_allocations_disjoint (a : Nat) (scheme : allocation_scheme)
    (live : List (Nat × Nat)) (m : MemoryManager) (ha : 0 < a)
    (h : Disciplined a scheme live m) :
    (∀ p ∈ live, ∃ pre B post, m.m_node_list = pre ++ B :: post ∧ total pre = p.1 ∧
      B.m_size = p.2 ∧ B.m_state = block_state.ALLOCATED ∧ 0 < p.2) ∧
    live.Pairwise (fun p q => p.1 + p.2 ≤ q.1 ∨ q.1 + q.2 ≤ p.1) ∧
    (∀ p ∈ live, ∃ m2, m.free p.1 = Except.ok m2) := by
  obtain ⟨⟨log, hr⟩, hperm⟩ := disciplined_invariant ha h
  have hsum := (reachable_invariants hr).1
  have hpos := reachable_no_wrap_pos ha hr
  have hblock : ∀ p ∈ live, ∃ pre B post, m.m_node_list = pre ++ B :: post ∧
      total pre = p.1 ∧ B.m_size = p.2 ∧ B.m_state = block_state.ALLOCATED ∧ 0 < p.2 := by
    intro p hp
    obtain ⟨pre, B, post, hl, h1, h2, h3⟩ :=
      mem_ranges _ 0 p ((List.Perm.mem_iff hperm).1 hp)
    refine ⟨pre, B, post, hl, by simpa using h1, h2, h3, ?_⟩
    rw [← h2]
    exact hpos B (by rw [hl]; simp)
  refine ⟨hblock, ?_, ?_⟩
  · have hsym : ∀ {p q : Nat × Nat},
        (p.1 + p.2 ≤ q.1 ∨ q.1 + q.2 ≤ p.1) → (q.1 + q.2 ≤ p.1 ∨ p.1 + p.2 ≤ q.1) :=
      fun hpq => hpq.symm
    rw [List.Perm.pairwise_iff hsym hperm]
    exact List.Pairwise.imp (fun hpq => Or.inl hpq) (ranges_sorted m.m_node_list 0).2
  · intro p hp
    obtain ⟨pre, B, post, hl, h1, _, _, _⟩ := hblock p hp
    have hsum2 := hsum
    rw [hl, total_append, total_cons] at hsum2
    unfold SIZE_MAX at hsum2
    have hfirst : ∀ k < pre.length, total (pre.take k) % 2 ^ 64 ≠ p.1 := by
      intro k hk
      have := total_take_lt pre (fun b hb => hpos b (by rw [hl]; simp [hb])) k hk
      rw [Nat.mod_eq_of_lt (by omega)]
      omega
    exact ⟨_, free_first_block m pre B post p.1 hl (by omega)
      (by rw [Nat.mod_eq_of_lt (by omega)]; exact h1) hfirst⟩

/-- An example of a disciplined run: a fresh FIRST_FIT manager of alignment 8 after
`allocate(8)` and `allocate(5)`, with the live allocations `(8, 8)` and `(0, 8)`. -/
theorem disciplined_example :
    Disciplined 8 allocation_scheme.FIRST_FIT [(8, 8), (0, 8)]
      (MemoryManager.mk 8 allocation_scheme.FIRST_FIT
        [⟨8, block_state.ALLOCATED⟩, ⟨8, block_state.ALLOCATED⟩,
          ⟨18446744073709551599, block_state.FREE⟩] 16) :=
  @Disciplined.allocate 8 allocation_scheme.FIRST_FIT [(0, 8)]
    (MemoryManager.mk 8 allocation_scheme.FIRST_FIT
      [⟨8, block_state.ALLOCATED⟩, ⟨18446744073709551607, block_state.FREE⟩] 8) _ 5 8
    (@Disciplined.allocate 8 allocation_scheme.FIRST_FIT [] _ _ 8 0
      Disciplined.fresh (by norm_num) (by decide) rfl)
    (by norm_num) (by decide) rfl

/-- The witness of C16: the two live allocations of `disciplined_example` are
disjoint. -/
theorem live_allocations_disjoint_witness :
    [((8 : Nat), (8 : Nat)), (0, 8)].Pairwise
      (fun p q => p.1 + p.2 ≤ q.1 ∨ q.1 + q.2 ≤ p.1) :=
  (live_allocations_disjoint 8 allocation_scheme.FIRST_FIT [(8, 8), (0, 8)]
    (MemoryManager.mk 8 allocation_scheme.FIRST_FIT
      [⟨8, block_state.ALLOCATED⟩, ⟨8, block_state.ALLOCATED⟩,
        ⟨18446744073709551599, block_state.FREE⟩] 16)
    (by decide) disciplined_example).2.1

end ngraph
